import Mathlib

/-!
Verification development for the iTask schedule-expression parser
(`src/lib/parser.py`, class `ScheduleParser`).

The parser is shallowly embedded over `List Char`.  Each regular
expression that the Python code applies with `re.match` (prefix match,
leftmost-greedy with backtracking) is hand-translated into a
deterministic matcher; comments on each matcher justify that the
translation reproduces the regex's behaviour, including the one place
where backtracking is observable (`(\d+)(\w+)` in the interval pattern).
Python string methods `strip`/`lower` are modelled on the ASCII fragment
(all inputs relevant to the claims are ASCII).
-/

namespace ITask

/-! ### Character-level helpers (ASCII fragment of Python semantics) -/

/-- Whitespace recognised by Python's `str.strip` and `\s` (ASCII part):
space, tab, newline, carriage return, vertical tab, form feed. -/
def isPySpace (c : Char) : Bool :=
  c = ' ' || c = '\t' || c = '\n' || c = '\r' || c = '\x0b' || c = '\x0c'

/-- Word character, Python `\w` (ASCII part): letters, digits, underscore. -/
def isWordChar (c : Char) : Bool :=
  c.isAlpha || c.isDigit || c = '_'

/-- Upper-to-lower case table for ASCII, modelling `str.lower`. -/
def UPPER_LOWER : List (Char × Char) :=
  [('A', 'a'), ('B', 'b'), ('C', 'c'), ('D', 'd'), ('E', 'e'), ('F', 'f'),
   ('G', 'g'), ('H', 'h'), ('I', 'i'), ('J', 'j'), ('K', 'k'), ('L', 'l'),
   ('M', 'm'), ('N', 'n'), ('O', 'o'), ('P', 'p'), ('Q', 'q'), ('R', 'r'),
   ('S', 's'), ('T', 't'), ('U', 'u'), ('V', 'v'), ('W', 'w'), ('X', 'x'),
   ('Y', 'y'), ('Z', 'z')]

/-- Lower-case one character (ASCII model of `str.lower`). -/
def lowerChar (c : Char) : Char :=
  match UPPER_LOWER.find? (fun p => p.1 == c) with
  | some p => p.2
  | none => c

/-- `str.lower` on a character list. -/
def pyLower (l : List Char) : List Char := l.map lowerChar

/-- `str.strip`: drop whitespace from both ends. -/
def pyStrip (l : List Char) : List Char :=
  ((l.dropWhile isPySpace).reverse.dropWhile isPySpace).reverse

/-- The normalisation the parser applies first: `expression.strip().lower()`. -/
def normalize (l : List Char) : List Char := pyLower (pyStrip l)

/-- Numeric value of a decimal digit character. -/
def digitVal (c : Char) : Nat := c.toNat - 48

/-- Value of a digit string, as Python's `int` on a `\d+` match. -/
def digitsToNat (ds : List Char) : Nat :=
  ds.foldl (fun a c => 10 * a + digitVal c) 0

/-! ### Regex matchers

Each matcher returns the captured groups of the corresponding `re.match`
call, or `none` when the pattern does not match a prefix of the input. -/

/-- Match a literal at the start of the input (regex literal text). -/
def matchLit (lit cs : List Char) : Option (List Char) :=
  if lit.isPrefixOf cs then some (cs.drop lit.length) else none

/-- Match `\s+`: at least one whitespace character, greedily.  In every
pattern of the source, `\s+` is followed by a non-whitespace requirement
(a letter of a literal or a digit), so the greedy maximal munch is the
only decomposition the regex engine can use. -/
def matchSpaces1 (cs : List Char) : Option (List Char) :=
  match cs with
  | c :: rest => if isPySpace c then some (rest.dropWhile isPySpace) else none
  | [] => none

/-- Match `(\d{1,2}):(\d{2})`, returning (hour, minute).  The regex tries
the two-digit hour first and backtracks to one digit if the `:` that
follows does not line up; the optional `(?::(\d{2}))?` seconds group is
accepted syntactically by the source regexes but its capture is never
read, so it is not modelled. -/
def matchTime (cs : List Char) : Option (Nat × Nat) :=
  match cs with
  | a :: b :: rest =>
    if a.isDigit && b.isDigit then
      match rest with
      | ':' :: c :: d :: _ =>
        if c.isDigit && d.isDigit then
          some (10 * digitVal a + digitVal b, 10 * digitVal c + digitVal d)
        else none
      | _ => none
    else if a.isDigit && b = ':' then
      match rest with
      | c :: d :: _ =>
        if c.isDigit && d.isDigit then
          some (digitVal a, 10 * digitVal c + digitVal d)
        else none
      | _ => none
    else none
  | _ => none

/-- Match `at\s+(\d{1,2}):(\d{2})(?::(\d{2}))?`. -/
def matchAtTime (cs : List Char) : Option (Nat × Nat) :=
  match matchLit ['a', 't'] cs with
  | none => none
  | some r1 =>
    match matchSpaces1 r1 with
    | none => none
    | some r2 => matchTime r2

/-- Match `(?:daily\s+)?at\s+(\d{1,2}):(\d{2})(?::(\d{2}))?` (pattern 1,
line 69).  The optional group is tried first; if the rest fails the
engine retries without it, which is what the fallback branch does. -/
def matchDaily (cs : List Char) : Option (Nat × Nat) :=
  match (match matchLit ['d', 'a', 'i', 'l', 'y'] cs with
         | none => none
         | some r1 =>
           match matchSpaces1 r1 with
           | none => none
           | some r2 => matchAtTime r2) with
  | some t => some t
  | none => matchAtTime cs

/-- Match `every\s+(\d+)(\w+)` (line 60), returning (int(group 1), group 2).

`(\d+)` takes the maximal digit run; `(\w+)` then needs at least one word
character.  If the character after the digit run is not a word character
(or the input ends there), the engine backtracks `(\d+)` by one digit and
`(\w+)` captures exactly that last digit (the character after it is known
to be non-word).  A single-digit run cannot backtrack, so the match
fails. -/
def matchInterval (cs : List Char) : Option (Nat × List Char) :=
  match matchLit ['e', 'v', 'e', 'r', 'y'] cs with
  | none => none
  | some r1 =>
    match matchSpaces1 r1 with
    | none => none
    | some r2 =>
      let ds := r2.takeWhile Char.isDigit
      let r3 := r2.drop ds.length
      if ds.isEmpty then none
      else
        match r3 with
        | c :: _ =>
          if isWordChar c then some (digitsToNat ds, r3.takeWhile isWordChar)
          else if 2 ≤ ds.length then
            some (digitsToNat ds.dropLast, [ds.getLastD '0'])
          else none
        | [] =>
          if 2 ≤ ds.length then
            some (digitsToNat ds.dropLast, [ds.getLastD '0'])
          else none

/-- Consume the optional ordinal suffix `(?:st|nd|rd|th)?`.  The suffix
letters are never whitespace, so when the suffix is present, retrying
without it cannot help the following `\s+`; consuming it greedily is
equivalent to the regex. -/
def matchOrdinalSuffix (cs : List Char) : List Char :=
  match cs with
  | 's' :: 't' :: r => r
  | 'n' :: 'd' :: r => r
  | 'r' :: 'd' :: r => r
  | 't' :: 'h' :: r => r
  | _ => cs

/-- Tail of the day-of-month pattern after the day digits:
`(?:st|nd|rd|th)?\s+at\s+(\d{1,2}):(\d{2})(?::(\d{2}))?`. -/
def matchDayTail (day : Nat) (cs : List Char) : Option (Nat × Nat × Nat) :=
  match matchSpaces1 (matchOrdinalSuffix cs) with
  | none => none
  | some r1 =>
    match matchLit ['a', 't'] r1 with
    | none => none
    | some r2 =>
      match matchSpaces1 r2 with
      | none => none
      | some r3 =>
        match matchTime r3 with
        | none => none
        | some (h, m) => some (day, h, m)

/-- Match `(\d{1,2})(?:st|nd|rd|th)?\s+at\s+(\d{1,2}):(\d{2})(?::(\d{2}))?`
(pattern 2, line 74).  `(\d{1,2})` greedily takes two digits and
backtracks to one if the rest of the pattern fails. -/
def matchDay (cs : List Char) : Option (Nat × Nat × Nat) :=
  match cs with
  | a :: rest =>
    if a.isDigit then
      match (match rest with
             | b :: rest2 =>
               if b.isDigit then matchDayTail (10 * digitVal a + digitVal b) rest2
               else none
             | [] => none) with
      | some x => some x
      | none => matchDayTail (digitVal a) rest
    else none
  | [] => none

/-- Match `(\w+)-(\w+)\s+at\s+(\d{1,2}):(\d{2})(?::(\d{2}))?` (pattern 3,
line 79).  `\w+` before a non-word requirement is deterministic: any
shorter capture would end at a word character, which cannot match `-` or
`\s`. -/
def matchRange (cs : List Char) : Option (List Char × List Char × Nat × Nat) :=
  let w1 := cs.takeWhile isWordChar
  if w1.isEmpty then none
  else
    match cs.drop w1.length with
    | '-' :: r1 =>
      let w2 := r1.takeWhile isWordChar
      if w2.isEmpty then none
      else
        match matchSpaces1 (r1.drop w2.length) with
        | none => none
        | some r2 =>
          match matchLit ['a', 't'] r2 with
          | none => none
          | some r3 =>
            match matchSpaces1 r3 with
            | none => none
            | some r4 =>
              match matchTime r4 with
              | none => none
              | some (h, m) => some (w1, w2, h, m)
    | _ => none

/-- Match `(\w+)\s+at\s+(\d{1,2}):(\d{2})(?::(\d{2}))?` (pattern 4,
line 84). -/
def matchWeekday (cs : List Char) : Option (List Char × Nat × Nat) :=
  let w := cs.takeWhile isWordChar
  if w.isEmpty then none
  else
    match matchSpaces1 (cs.drop w.length) with
    | none => none
    | some r1 =>
      match matchLit ['a', 't'] r1 with
      | none => none
      | some r2 =>
        match matchSpaces1 r2 with
        | none => none
        | some r3 =>
          match matchTime r3 with
          | none => none
          | some (h, m) => some (w, h, m)

/-! ### Lookup tables (`ScheduleParser.WEEKDAYS`, `ScheduleParser.INTERVAL_UNITS`) -/

/-- Weekday name table, parser.py lines 11-19. -/
def WEEKDAYS : List (List Char × Nat) :=
  [(['s', 'u', 'n', 'd', 'a', 'y'], 0), (['s', 'u', 'n'], 0),
   (['m', 'o', 'n', 'd', 'a', 'y'], 1), (['m', 'o', 'n'], 1),
   (['t', 'u', 'e', 's', 'd', 'a', 'y'], 2), (['t', 'u', 'e'], 2), (['t', 'u', 'e', 's'], 2),
   (['w', 'e', 'd', 'n', 'e', 's', 'd', 'a', 'y'], 3), (['w', 'e', 'd'], 3),
   (['t', 'h', 'u', 'r', 's', 'd', 'a', 'y'], 4), (['t', 'h', 'u'], 4),
   (['t', 'h', 'u', 'r'], 4), (['t', 'h', 'u', 'r', 's'], 4),
   (['f', 'r', 'i', 'd', 'a', 'y'], 5), (['f', 'r', 'i'], 5),
   (['s', 'a', 't', 'u', 'r', 'd', 'a', 'y'], 6), (['s', 'a', 't'], 6)]

/-- Dictionary lookup in the weekday table. -/
def weekdayLookup (w : List Char) : Option Nat :=
  (WEEKDAYS.find? (fun p => decide (p.1 = w))).map (fun p => p.2)

/-- Interval unit multipliers, parser.py lines 22-27. -/
def INTERVAL_UNITS : List (List Char × Nat) :=
  [(['s'], 1), (['m'], 60), (['h'], 3600), (['d'], 86400)]

/-- Dictionary lookup in the interval-unit table. -/
def unitLookup (u : List Char) : Option Nat :=
  (INTERVAL_UNITS.find? (fun p => decide (p.1 = u))).map (fun p => p.2)

/-! ### Results and errors -/

/-- A calendar entry: the Python dict the parser builds, as an ordered
association list with the literal launchd key names. -/
abbrev CalEntry := List (String × Nat)

/-- Parsed schedule: the `{"type": ..., "schedule": ...}` dict.  The
calendar schedule payload is a single dict for the daily / day-of-month /
single-weekday patterns and a list of dicts for the weekday-range
pattern, exactly as in the source. -/
inductive Sched where
  | interval (seconds : Nat)
  | calendar (entry : CalEntry)
  | calendarList (entries : List CalEntry)
deriving DecidableEq, Repr

/-- Errors raised by `ScheduleParser.parse` (all `ValueError`s in the
source; constructors follow the distinct message texts).
`invalidTimeHour`/`invalidTimeMinute` are the two shapes of the
`Invalid time format` message; `invalidWeekday` is `Invalid weekday: w`
and `invalidWeekdayRange` is `Invalid weekday range: s-t`. -/
inductive PErr where
  | emptyExpression
  | invalidScheduleFormat (e : List Char)
  | invalidIntervalUnit (u : List Char)
  | invalidTimeHour (h : Nat)
  | invalidTimeMinute (m : Nat)
  | invalidWeekday (w : List Char)
  | invalidWeekdayRange (s t : List Char)
  | invalidDayOfMonth (d : Nat)
deriving DecidableEq, Repr

/-- Outcome of a `parse` call: the returned dict, or the raised error. -/
inductive PResult where
  | ok (s : Sched)
  | error (e : PErr)
deriving DecidableEq, Repr

/-! ### Per-pattern handlers -/

/-- `_validate_time` (lines 224-229).  The extracted values come from
`\d{1,2}` / `\d{2}` groups so they are non-negative; the lower bounds of
`0 <= hour` / `0 <= minute` are automatic on `Nat`. -/
def validateTime (hour minute : Nat) : Option PErr :=
  if ¬ hour ≤ 23 then some (.invalidTimeHour hour)
  else if ¬ minute ≤ 59 then some (.invalidTimeMinute minute)
  else none

/-- `_parse_interval` (lines 119-132): re-checks the unit, then
multiplies. -/
def parseIntervalRes (value : Nat) (unit : List Char) : PResult :=
  match unitLookup unit with
  | none => .error (.invalidIntervalUnit unit)
  | some mult => .ok (.interval (value * mult))

/-- `_parse_daily` (lines 134-147). -/
def parseDailyRes (hour minute : Nat) : PResult :=
  match validateTime hour minute with
  | some e => .error e
  | none => .ok (.calendar [("Hour", hour), ("Minute", minute)])

/-- `_parse_weekday` (lines 149-169): time is validated before the
weekday token is looked up; the token is lower-cased first (a no-op
after normalisation, kept for faithfulness). -/
def parseWeekdayRes (w : List Char) (hour minute : Nat) : PResult :=
  match validateTime hour minute with
  | some e => .error e
  | none =>
    match weekdayLookup (pyLower w) with
    | none => .error (.invalidWeekday (pyLower w))
    | some n => .ok (.calendar [("Weekday", n), ("Hour", hour), ("Minute", minute)])

/-- The `while True` day loop of `_parse_weekday_range` (lines 187-197),
with explicit fuel.  For table values `start`, `stop < 7` the loop stops
after at most 7 iterations (it walks `current = (current+1) % 7` and
every residue mod 7 is visited within 7 steps), so fuel 7 is exact. -/
def rangeLoop : Nat → Nat → Nat → List Nat
  | 0, _, _ => []
  | fuel + 1, current, stop =>
    current :: (if current = stop then [] else rangeLoop fuel ((current + 1) % 7) stop)

/-- Days generated for a weekday range. -/
def rangeDays (start stop : Nat) : List Nat := rangeLoop 7 start stop

/-- `_parse_weekday_range` (lines 171-202): time validated first, then
both endpoints checked against the table, then the wrap-around walk. -/
def parseWeekdayRangeRes (w1 w2 : List Char) (hour minute : Nat) : PResult :=
  match validateTime hour minute with
  | some e => .error e
  | none =>
    match weekdayLookup (pyLower w1), weekdayLookup (pyLower w2) with
    | some a, some b =>
      .ok (.calendarList ((rangeDays a b).map
        (fun d => [("Weekday", d), ("Hour", hour), ("Minute", minute)])))
    | _, _ => .error (.invalidWeekdayRange (pyLower w1) (pyLower w2))

/-- `_parse_day_of_month` (lines 204-222): time validated first, then the
day bound. -/
def parseDayRes (day hour minute : Nat) : PResult :=
  match validateTime hour minute with
  | some e => .error e
  | none =>
    if 1 ≤ day ∧ day ≤ 31 then
      .ok (.calendar [("Day", day), ("Hour", hour), ("Minute", minute)])
    else .error (.invalidDayOfMonth day)

/-- Grammar dispatch of `parse` after normalisation (lines 52-88):
shortcuts, interval (with the unit check pre-empting fall-through),
daily, day-of-month, weekday range, single weekday, and the final
`Invalid schedule format` error. -/
def parseNorm (e : List Char) : PResult :=
  if e = ['h', 'o', 'u', 'r', 'l', 'y'] then .ok (.interval 3600)
  else if e = ['m', 'i', 'n', 'u', 't', 'e', 'l', 'y'] then .ok (.interval 60)
  else
    match matchInterval e with
    | some (v, u) =>
      match unitLookup u with
      | none => .error (.invalidIntervalUnit u)
      | some _ => parseIntervalRes v u
    | none =>
      match matchDaily e with
      | some (h, m) => parseDailyRes h m
      | none =>
        match matchDay e with
        | some (d, h, m) => parseDayRes d h m
        | none =>
          match matchRange e with
          | some (w1, w2, h, m) => parseWeekdayRangeRes w1 w2 h m
          | none =>
            match matchWeekday e with
            | some (w, h, m) => parseWeekdayRes w h m
            | none => .error (.invalidScheduleFormat e)

/-- `ScheduleParser.parse` (lines 29-88): empty check, then
`strip().lower()`, then grammar dispatch. -/
def parse (expression : List Char) : PResult :=
  if pyStrip expression = [] then .error .emptyExpression
  else parseNorm (normalize expression)

/-! ### Raw-dictionary entry point (`parse_raw`, lines 90-117) -/

/-- Values stored in a raw schedule dict (the shapes the claims need). -/
inductive PyVal where
  | vint (n : Int)
  | vstr (s : String)
deriving DecidableEq, Repr

/-- Python `dict.get` on an ordered association list. -/
def dictGet (d : List (String × PyVal)) (k : String) : Option PyVal :=
  (d.find? (fun p => decide (p.1 = k))).map (fun p => p.2)

/-- Outcome of `parse_raw`: the interval dict with the `seconds` value
copied verbatim, the calendar dict with all non-`type` items copied
verbatim, the `Invalid schedule type` error (carrying the offending
discriminator, `none` when the key is absent), or the `KeyError` Python
raises when an interval dict lacks `seconds`. -/
inductive RawResult where
  | okInterval (seconds : PyVal)
  | okCalendar (data : List (String × PyVal))
  | errType (t : Option PyVal)
  | errKey (k : String)
deriving DecidableEq, Repr

/-- `ScheduleParser.parse_raw`. -/
def parse_raw (d : List (String × PyVal)) : RawResult :=
  match dictGet d "type" with
  | some (.vstr "interval") =>
    match dictGet d "seconds" with
    | some v => .okInterval v
    | none => .errKey "seconds"
  | some (.vstr "calendar") => .okCalendar (d.filter (fun p => decide (p.1 ≠ "type")))
  | t => .errType t

/-! ### Input-building helpers for the theorems (spec side) -/

/-- Digit character for a value below 10 (used to build `HH:MM` inputs). -/
def digitCh : Nat → Char
  | 0 => '0' | 1 => '1' | 2 => '2' | 3 => '3' | 4 => '4'
  | 5 => '5' | 6 => '6' | 7 => '7' | 8 => '8' | 9 => '9'
  | _ => '?'

/-- Two-digit zero-padded decimal rendering (for `HH` and `MM`). -/
def fmt2 (n : Nat) : List Char := [digitCh (n / 10), digitCh (n % 10)]

/-- Lower-case ASCII letter test, used to delimit the tokens the claims
quantify over. -/
def isLowerAlpha (c : Char) : Bool :=
  ['a', 'b', 'c', 'd', 'e', 'f', 'g', 'h', 'i', 'j', 'k', 'l', 'm',
   'n', 'o', 'p', 'q', 'r', 's', 't', 'u', 'v', 'w', 'x', 'y', 'z'].contains c

/-- The invariant of claim C6 on one calendar entry: `Hour` and `Minute`
present, never both `Weekday` and `Day`. -/
def entryOkB (e : CalEntry) : Bool :=
  (e.any (fun p => p.1 == "Hour")) && (e.any (fun p => p.1 == "Minute")) &&
  !((e.any (fun p => p.1 == "Weekday")) && (e.any (fun p => p.1 == "Day")))

/-- The invariant of claim C6 on a parse result. -/
def schedOk : Sched → Prop
  | .interval _ => True
  | .calendar e => entryOkB e = true
  | .calendarList l => ∀ e ∈ l, entryOkB e = true

/-! ### Character facts -/

theorem lowerAlpha_facts {c : Char} (h : isLowerAlpha c = true) :
    isPySpace c = false ∧ Char.isDigit c = false ∧ isWordChar c = true ∧
    lowerChar c = c ∧ c ≠ ':' ∧ c ≠ '-' := by
  have h' : c ∈ ['a', 'b', 'c', 'd', 'e', 'f', 'g', 'h', 'i', 'j', 'k', 'l', 'm',
      'n', 'o', 'p', 'q', 'r', 's', 't', 'u', 'v', 'w', 'x', 'y', 'z'] := by
    simpa [isLowerAlpha] using h
  fin_cases h' <;> exact ⟨by decide, by decide, by decide, by decide, by decide, by decide⟩

theorem digit_not_upper {c : Char} (h : c.isDigit = true) :
    ∀ p ∈ UPPER_LOWER, ¬ (p.1 == c) = true := by
  intro p hp e
  rw [beq_iff_eq] at e
  fin_cases hp <;> (subst e; exact absurd h (by decide))

theorem digit_facts {c : Char} (h : c.isDigit = true) :
    isPySpace c = false ∧ isWordChar c = true ∧ lowerChar c = c := by
  refine ⟨?_, ?_, ?_⟩
  · have h1 : c ≠ ' ' := fun e => by subst e; exact absurd h (by decide)
    have h2 : c ≠ '\t' := fun e => by subst e; exact absurd h (by decide)
    have h3 : c ≠ '\n' := fun e => by subst e; exact absurd h (by decide)
    have h4 : c ≠ '\r' := fun e => by subst e; exact absurd h (by decide)
    have h5 : c ≠ '\x0b' := fun e => by subst e; exact absurd h (by decide)
    have h6 : c ≠ '\x0c' := fun e => by subst e; exact absurd h (by decide)
    simp [isPySpace, h1, h2, h3, h4, h5, h6]
  · simp [isWordChar, h]
  · rw [lowerChar, List.find?_eq_none.mpr (digit_not_upper h)]

theorem digitCh_facts : ∀ d < 10, (digitCh d).isDigit = true ∧
    isPySpace (digitCh d) = false ∧ lowerChar (digitCh d) = digitCh d ∧
    digitVal (digitCh d) = d ∧ isWordChar (digitCh d) = true := by decide

/-! ### Matcher helper lemmas -/

theorem matchLit_append (L r : List Char) : matchLit L (L ++ r) = some r := by
  rw [matchLit, if_pos, List.drop_left]
  rw [ List.isPrefixOf_iff_prefix]
  exact List.prefix_append L r

theorem matchLit_none {L cs : List Char} (h : ¬ L <+: cs) : matchLit L cs = none := by
  rw [matchLit, if_neg]
  rw [ List.isPrefixOf_iff_prefix]
  exact h

theorem matchLit_inv {L cs r : List Char} (h : matchLit L cs = some r) :
    L <+: cs ∧ r = cs.drop L.length := by
  rw [matchLit] at h
  by_cases hp : L.isPrefixOf cs
  · rw [if_pos hp] at h
    exact ⟨ List.isPrefixOf_iff_prefix.mp hp, (Option.some_inj.mp h).symm⟩
  · rw [if_neg hp] at h
    exact absurd h (by simp)

/-- Prefix dichotomy at a separator character: a literal that does not
contain the separator and is a prefix of `w ++ c :: rest` is already a
prefix of `w`. -/
theorem prefix_sep {L w rest : List Char} {c : Char}
    (h : L <+: w ++ c :: rest) (hc : c ∉ L) : L <+: w := by
  rcases le_or_lt L.length w.length with hl | hl
  · exact List.prefix_of_prefix_length_le h (List.prefix_append w (c :: rest)) hl
  · have hw : w <+: L :=
      List.prefix_of_prefix_length_le (List.prefix_append w (c :: rest)) h (le_of_lt hl)
    obtain ⟨t, rfl⟩ := hw
    rw [List.prefix_append_right_inj] at h
    cases t with
    | nil => simp
    | cons a t' =>
      obtain ⟨u, hu⟩ := h
      have : a = c := (List.cons.injEq _ _ _ _ ▸ hu).1
      subst this
      exact absurd (List.mem_append_right w (List.mem_cons_self a t')) hc

theorem takeWhile_all {p : Char → Bool} {w : List Char}
    (hall : ∀ x ∈ w, p x = true) : w.takeWhile p = w := by
  induction w with
  | nil => rfl
  | cons a l ih =>
    rw [List.takeWhile_cons, if_pos (hall a (List.mem_cons_self a l)),
      ih (fun x hx => hall x (List.mem_cons_of_mem a hx))]

/-- A maximal word run followed by a non-matching character: what
`takeWhile` captures and what remains. -/
theorem run_split {p : Char → Bool} {w : List Char} {c : Char} (rest : List Char)
    (hall : ∀ x ∈ w, p x = true) (hc : p c = false) :
    (w ++ c :: rest).takeWhile p = w ∧
    (w ++ c :: rest).drop w.length = c :: rest := by
  constructor
  · rw [List.takeWhile_append, takeWhile_all hall, if_pos rfl, List.takeWhile_cons,
      if_neg (by simp [hc])]
    simp
  · exact List.drop_left w (c :: rest)

theorem dropWhile_eq_self_of_head {p : Char → Bool} {l : List Char}
    (h : ∀ c, l.head? = some c → p c = false) : l.dropWhile p = l := by
  cases l with
  | nil => rfl
  | cons a r => rw [List.dropWhile_cons, if_neg (by simp [h a rfl])]

theorem dropWhile_idem (p : Char → Bool) (l : List Char) :
    (l.dropWhile p).dropWhile p = l.dropWhile p := by
  apply dropWhile_eq_self_of_head
  intro c hc
  have := List.head?_dropWhile_not p l
  rw [hc] at this
  exact this

theorem dropWhile_eq_drop (p : Char → Bool) (l : List Char) :
    ∃ k, l.dropWhile p = l.drop k := by
  induction l with
  | nil => exact ⟨0, rfl⟩
  | cons a r ih =>
    by_cases hp : p a = true
    · obtain ⟨k, hk⟩ := ih
      exact ⟨k + 1, by rw [List.dropWhile_cons, if_pos hp, hk]; rfl⟩
    · exact ⟨0, by rw [List.dropWhile_cons, if_neg hp]; rfl⟩

/-! ### Normalisation lemmas (`strip` and `lower`) -/

theorem isPySpace_lowerChar (c : Char) : isPySpace (lowerChar c) = isPySpace c := by
  rw [lowerChar]
  cases hf : UPPER_LOWER.find? (fun p => p.1 == c) with
  | none => rfl
  | some p =>
    have hm := List.mem_of_find?_eq_some hf
    have he : p.1 = c := by
      have := List.find?_some hf
      rwa [beq_iff_eq] at this
    fin_cases hm <;> (rw [← he]; decide)

theorem lowerChar_idem (c : Char) : lowerChar (lowerChar c) = lowerChar c := by
  cases hf : UPPER_LOWER.find? (fun p => p.1 == c) with
  | none =>
    have h1 : lowerChar c = c := by rw [lowerChar, hf]
    simp only [h1]
  | some p =>
    have h1 : lowerChar c = p.2 := by rw [lowerChar, hf]
    have hm := List.mem_of_find?_eq_some hf
    simp only [h1]
    fin_cases hm <;> decide

theorem pyLower_append (a b : List Char) :
    pyLower (a ++ b) = pyLower a ++ pyLower b := List.map_append lowerChar a b

theorem pyLower_eq_self_of {l : List Char} (h : ∀ c ∈ l, lowerChar c = c) :
    pyLower l = l := by
  rw [pyLower]
  induction l with
  | nil => rfl
  | cons a r ih =>
    rw [List.map_cons, h a (List.mem_cons_self a r),
      ih (fun c hc => h c (List.mem_cons_of_mem a hc))]

theorem pyLower_idem (l : List Char) : pyLower (pyLower l) = pyLower l := by
  rw [pyLower, pyLower, List.map_map]
  have : lowerChar ∘ lowerChar = lowerChar := funext lowerChar_idem
  rw [this]

theorem head_dropWhile_false {p : Char → Bool} {l : List Char} {c : Char}
    (h : (l.dropWhile p).head? = some c) : p c = false := by
  have := List.head?_dropWhile_not p l
  rw [h] at this
  exact this

theorem pyStrip_eq_self {l : List Char}
    (hh : ∀ c, l.head? = some c → isPySpace c = false)
    (hg : ∀ c, l.getLast? = some c → isPySpace c = false) : pyStrip l = l := by
  rw [pyStrip, dropWhile_eq_self_of_head hh, dropWhile_eq_self_of_head
    (fun c hc => hg c (by rwa [List.head?_reverse] at hc)), List.reverse_reverse]

theorem pyStrip_idem (l : List Char) : pyStrip (pyStrip l) = pyStrip l := by
  have hu : ∀ c, ((l.dropWhile isPySpace).dropWhile isPySpace).head? = some c →
      isPySpace c = false := fun c hc => head_dropWhile_false hc
  rw [pyStrip, pyStrip]
  -- left strip of the stripped list is a no-op: the stripped list is a
  -- prefix (a take) of the left-stripped list, whose head is non-space
  have hL : (((l.dropWhile isPySpace).reverse.dropWhile isPySpace).reverse).dropWhile
      isPySpace = ((l.dropWhile isPySpace).reverse.dropWhile isPySpace).reverse := by
    apply dropWhile_eq_self_of_head
    intro c hc
    obtain ⟨k, hk⟩ := dropWhile_eq_drop isPySpace (l.dropWhile isPySpace).reverse
    rw [hk, List.reverse_drop, List.reverse_reverse, List.head?_take] at hc
    by_cases hz : (l.dropWhile isPySpace).reverse.length - k = 0
    · rw [if_pos hz] at hc
      exact absurd hc (by simp)
    · rw [if_neg hz] at hc
      exact head_dropWhile_false hc
  rw [hL, List.reverse_reverse, dropWhile_idem]

theorem pyStrip_pyLower (l : List Char) : pyStrip (pyLower l) = pyLower (pyStrip l) := by
  have hcomp : isPySpace ∘ lowerChar = isPySpace := funext isPySpace_lowerChar
  rw [pyStrip, pyStrip, pyLower, List.dropWhile_map, hcomp, ← List.map_reverse,
    List.dropWhile_map, hcomp, ← List.map_reverse]
  rfl

theorem normalize_idem (l : List Char) : normalize (normalize l) = normalize l := by
  rw [normalize, normalize, pyStrip_pyLower, pyStrip_idem, pyLower_idem]

theorem pyStrip_normalize (l : List Char) :
    pyStrip (normalize l) = normalize l := by
  rw [normalize, pyStrip_pyLower, pyStrip_idem]

theorem normalize_eq_self {l : List Char}
    (hlow : ∀ c ∈ l, lowerChar c = c)
    (hh : ∀ c, l.head? = some c → isPySpace c = false)
    (hg : ∀ c, l.getLast? = some c → isPySpace c = false) : normalize l = l := by
  rw [normalize, pyStrip_eq_self hh hg, pyLower_eq_self_of hlow]

theorem list_ne_of_mem {l L : List Char} {c : Char} (hc : c ∈ l) (hn : c ∉ L) :
    l ≠ L := fun e => hn (e ▸ hc)

/-! ### Dispatch lemmas: which pattern fires on token-shaped input -/

theorem matchTime_fmt (h m : Nat) (hh : h ≤ 99) (hm : m ≤ 99) (rest : List Char) :
    matchTime (fmt2 h ++ ':' :: (fmt2 m ++ rest)) = some (h, m) := by
  obtain ⟨ha, -, -, va, -⟩ := digitCh_facts (h / 10) (by omega)
  obtain ⟨hb, -, -, vb, -⟩ := digitCh_facts (h % 10) (by omega)
  obtain ⟨hc, -, -, vc, -⟩ := digitCh_facts (m / 10) (by omega)
  obtain ⟨hd, -, -, vd, -⟩ := digitCh_facts (m % 10) (by omega)
  show matchTime (digitCh (h / 10) :: digitCh (h % 10) :: ':' :: digitCh (m / 10) ::
    digitCh (m % 10) :: rest) = some (h, m)
  simp [matchTime, ha, hb, hc, hd, va, vb, vc, vd]
  omega


/-- `every\s+(\d+)...` cannot match an all-letter token followed by `-`. -/
theorem matchInterval_none_sep {w : List Char} (hw : ∀ x ∈ w, isLowerAlpha x = true)
    (rest : List Char) : matchInterval (w ++ '-' :: rest) = none := by
  cases hml : matchLit ['e', 'v', 'e', 'r', 'y'] (w ++ '-' :: rest) with
  | none => simp [matchInterval, hml]
  | some r1 =>
    obtain ⟨w', rfl⟩ := prefix_sep (matchLit_inv hml).1 (by decide)
    cases w' with
    | nil =>
      have hml2 : matchLit ['e', 'v', 'e', 'r', 'y']
          ('e' :: 'v' :: 'e' :: 'r' :: 'y' :: '-' :: rest) = some ('-' :: rest) :=
        matchLit_append ['e', 'v', 'e', 'r', 'y'] ('-' :: rest)
      have hs : matchSpaces1 ('-' :: rest) = none := by
        simp [matchSpaces1, show isPySpace '-' = false by decide]
      simp [matchInterval, hml2, hs]
    | cons a t =>
      have ha := (lowerAlpha_facts (hw a (List.mem_append_right _
        (List.mem_cons_self a t)))).1
      have hml2 : matchLit ['e', 'v', 'e', 'r', 'y']
          ('e' :: 'v' :: 'e' :: 'r' :: 'y' :: (a :: (t ++ '-' :: rest))) =
          some (a :: (t ++ '-' :: rest)) :=
        matchLit_append ['e', 'v', 'e', 'r', 'y'] (a :: (t ++ '-' :: rest))
      have hs : matchSpaces1 (a :: (t ++ '-' :: rest)) = none := by
        simp [matchSpaces1, ha]
      simp [matchInterval, hml2, hs]

/-- `every\s+(\d+)...` cannot match an all-letter token followed by
`" at..."`: even when the token is `every` itself, no digit follows the
whitespace. -/
theorem matchInterval_none_at {w : List Char} (hw : ∀ x ∈ w, isLowerAlpha x = true)
    (rest : List Char) : matchInterval (w ++ ' ' :: 'a' :: 't' :: rest) = none := by
  cases hml : matchLit ['e', 'v', 'e', 'r', 'y'] (w ++ ' ' :: 'a' :: 't' :: rest) with
  | none => simp [matchInterval, hml]
  | some r1 =>
    obtain ⟨w', rfl⟩ := prefix_sep (matchLit_inv hml).1 (by decide)
    cases w' with
    | nil =>
      have hml2 : matchLit ['e', 'v', 'e', 'r', 'y']
          ('e' :: 'v' :: 'e' :: 'r' :: 'y' :: ' ' :: 'a' :: 't' :: rest) =
          some (' ' :: 'a' :: 't' :: rest) :=
        matchLit_append ['e', 'v', 'e', 'r', 'y'] (' ' :: 'a' :: 't' :: rest)
      have hs : matchSpaces1 (' ' :: 'a' :: 't' :: rest) =
          some ('a' :: 't' :: rest) := by
        simp [matchSpaces1, List.dropWhile_cons,
          show isPySpace ' ' = true by decide, show isPySpace 'a' = false by decide]
      simp [matchInterval, hml2, hs, List.takeWhile_cons,
        show Char.isDigit 'a' = false by decide]
    | cons a t =>
      have ha := (lowerAlpha_facts (hw a (List.mem_append_right _
        (List.mem_cons_self a t)))).1
      have hml2 : matchLit ['e', 'v', 'e', 'r', 'y']
          ('e' :: 'v' :: 'e' :: 'r' :: 'y' :: (a :: (t ++ ' ' :: 'a' :: 't' :: rest))) =
          some (a :: (t ++ ' ' :: 'a' :: 't' :: rest)) :=
        matchLit_append ['e', 'v', 'e', 'r', 'y'] (a :: (t ++ ' ' :: 'a' :: 't' :: rest))
      have hs : matchSpaces1 (a :: (t ++ ' ' :: 'a' :: 't' :: rest)) = none := by
        simp [matchSpaces1, ha]
      simp [matchInterval, hml2, hs]

/-- `at\s+...` cannot match an all-letter token followed by `-`. -/
theorem matchAtTime_none_sep {w : List Char} (hw : ∀ x ∈ w, isLowerAlpha x = true)
    (rest : List Char) : matchAtTime (w ++ '-' :: rest) = none := by
  cases hml : matchLit ['a', 't'] (w ++ '-' :: rest) with
  | none => simp [matchAtTime, hml]
  | some r1 =>
    obtain ⟨w', rfl⟩ := prefix_sep (matchLit_inv hml).1 (by decide)
    cases w' with
    | nil =>
      have hml2 : matchLit ['a', 't'] ('a' :: 't' :: '-' :: rest) =
          some ('-' :: rest) := matchLit_append ['a', 't'] ('-' :: rest)
      have hs : matchSpaces1 ('-' :: rest) = none := by
        simp [matchSpaces1, show isPySpace '-' = false by decide]
      simp [matchAtTime, hml2, hs]
    | cons a t =>
      have ha := (lowerAlpha_facts (hw a (List.mem_append_right _
        (List.mem_cons_self a t)))).1
      have hml2 : matchLit ['a', 't'] ('a' :: 't' :: (a :: (t ++ '-' :: rest))) =
          some (a :: (t ++ '-' :: rest)) :=
        matchLit_append ['a', 't'] (a :: (t ++ '-' :: rest))
      have hs : matchSpaces1 (a :: (t ++ '-' :: rest)) = none := by
        simp [matchSpaces1, ha]
      simp [matchAtTime, hml2, hs]

/-- `at\s+(\d...)` cannot match an all-letter token followed by
`" at ..."`: for the token `at` itself the characters after the consumed
whitespace are `at ...`, not digits. -/
theorem matchAtTime_none_at {w : List Char} (hw : ∀ x ∈ w, isLowerAlpha x = true)
    (ts : List Char) :
    matchAtTime (w ++ ' ' :: 'a' :: 't' :: ' ' :: ts) = none := by
  cases hml : matchLit ['a', 't'] (w ++ ' ' :: 'a' :: 't' :: ' ' :: ts) with
  | none => simp [matchAtTime, hml]
  | some r1 =>
    obtain ⟨w', rfl⟩ := prefix_sep (matchLit_inv hml).1 (by decide)
    cases w' with
    | nil =>
      have hml2 : matchLit ['a', 't'] ('a' :: 't' :: ' ' :: 'a' :: 't' :: ' ' :: ts) =
          some (' ' :: 'a' :: 't' :: ' ' :: ts) :=
        matchLit_append ['a', 't'] (' ' :: 'a' :: 't' :: ' ' :: ts)
      have hs : matchSpaces1 (' ' :: 'a' :: 't' :: ' ' :: ts) =
          some ('a' :: 't' :: ' ' :: ts) := by
        simp [matchSpaces1, List.dropWhile_cons,
          show isPySpace ' ' = true by decide, show isPySpace 'a' = false by decide]
      have hmt : matchTime ('a' :: 't' :: ' ' :: ts) = none := by
        simp [matchTime, show Char.isDigit 'a' = false by decide]
      simp [matchAtTime, hml2, hs, hmt]
    | cons a t =>
      have ha := (lowerAlpha_facts (hw a (List.mem_append_right _
        (List.mem_cons_self a t)))).1
      have hml2 : matchLit ['a', 't']
          ('a' :: 't' :: (a :: (t ++ ' ' :: 'a' :: 't' :: ' ' :: ts))) =
          some (a :: (t ++ ' ' :: 'a' :: 't' :: ' ' :: ts)) :=
        matchLit_append ['a', 't'] (a :: (t ++ ' ' :: 'a' :: 't' :: ' ' :: ts))
      have hs : matchSpaces1 (a :: (t ++ ' ' :: 'a' :: 't' :: ' ' :: ts)) = none := by
        simp [matchSpaces1, ha]
      simp [matchAtTime, hml2, hs]

/-- The daily pattern cannot match an all-letter token followed by `-`. -/
theorem matchDaily_none_sep {w : List Char} (hw : ∀ x ∈ w, isLowerAlpha x = true)
    (rest : List Char) : matchDaily (w ++ '-' :: rest) = none := by
  have hat := matchAtTime_none_sep hw rest
  cases hml : matchLit ['d', 'a', 'i', 'l', 'y'] (w ++ '-' :: rest) with
  | none => simp [matchDaily, hml, hat]
  | some r1 =>
    obtain ⟨w', rfl⟩ := prefix_sep (matchLit_inv hml).1 (by decide)
    cases w' with
    | nil =>
      have hat2 : matchAtTime ('d' :: 'a' :: 'i' :: 'l' :: 'y' :: '-' :: rest) =
          none := hat
      have hml2 : matchLit ['d', 'a', 'i', 'l', 'y']
          ('d' :: 'a' :: 'i' :: 'l' :: 'y' :: '-' :: rest) = some ('-' :: rest) :=
        matchLit_append ['d', 'a', 'i', 'l', 'y'] ('-' :: rest)
      have hs : matchSpaces1 ('-' :: rest) = none := by
        simp [matchSpaces1, show isPySpace '-' = false by decide]
      simp [matchDaily, hml2, hs, hat2]
    | cons a t =>
      have ha := (lowerAlpha_facts (hw a (List.mem_append_right _
        (List.mem_cons_self a t)))).1
      have hat2 : matchAtTime
          ('d' :: 'a' :: 'i' :: 'l' :: 'y' :: (a :: (t ++ '-' :: rest))) = none := hat
      have hml2 : matchLit ['d', 'a', 'i', 'l', 'y']
          ('d' :: 'a' :: 'i' :: 'l' :: 'y' :: (a :: (t ++ '-' :: rest))) =
          some (a :: (t ++ '-' :: rest)) :=
        matchLit_append ['d', 'a', 'i', 'l', 'y'] (a :: (t ++ '-' :: rest))
      have hs : matchSpaces1 (a :: (t ++ '-' :: rest)) = none := by
        simp [matchSpaces1, ha]
      simp [matchDaily, hml2, hs, hat2]

/-- The daily pattern cannot match an all-letter token other than
`daily` followed by `" at ..."`. -/
theorem matchDaily_none_at {w : List Char} (hw : ∀ x ∈ w, isLowerAlpha x = true)
    (hne : w ≠ ['d', 'a', 'i', 'l', 'y']) (ts : List Char) :
    matchDaily (w ++ ' ' :: 'a' :: 't' :: ' ' :: ts) = none := by
  have hat := matchAtTime_none_at hw ts
  cases hml : matchLit ['d', 'a', 'i', 'l', 'y'] (w ++ ' ' :: 'a' :: 't' :: ' ' :: ts) with
  | none => simp [matchDaily, hml, hat]
  | some r1 =>
    obtain ⟨w', rfl⟩ := prefix_sep (matchLit_inv hml).1 (by decide)
    cases w' with
    | nil => exact absurd (by simp) hne
    | cons a t =>
      have ha := (lowerAlpha_facts (hw a (List.mem_append_right _
        (List.mem_cons_self a t)))).1
      have hat2 : matchAtTime
          ('d' :: 'a' :: 'i' :: 'l' :: 'y' :: (a :: (t ++ ' ' :: 'a' :: 't' :: ' ' :: ts))) =
          none := hat
      have hml2 : matchLit ['d', 'a', 'i', 'l', 'y']
          ('d' :: 'a' :: 'i' :: 'l' :: 'y' :: (a :: (t ++ ' ' :: 'a' :: 't' :: ' ' :: ts))) =
          some (a :: (t ++ ' ' :: 'a' :: 't' :: ' ' :: ts)) :=
        matchLit_append ['d', 'a', 'i', 'l', 'y'] (a :: (t ++ ' ' :: 'a' :: 't' :: ' ' :: ts))
      have hs : matchSpaces1 (a :: (t ++ ' ' :: 'a' :: 't' :: ' ' :: ts)) = none := by
        simp [matchSpaces1, ha]
      simp [matchDaily, hml2, hs, hat2]

/-- The day-of-month pattern requires a leading digit. -/
theorem matchDay_none_alpha {a : Char} (ha : isLowerAlpha a = true) (rest : List Char) :
    matchDay (a :: rest) = none := by
  simp [matchDay, (lowerAlpha_facts ha).2.1]

/-- The range pattern requires `-` right after the first word run. -/
theorem matchRange_none_at {w : List Char} (hw0 : w ≠ [])
    (hw : ∀ x ∈ w, isWordChar x = true) (rest : List Char) :
    matchRange (w ++ ' ' :: rest) = none := by
  obtain ⟨ht, hd⟩ := run_split rest hw (show isWordChar ' ' = false by decide)
  have hne : w.isEmpty = false := by
    cases w with
    | nil => exact absurd rfl hw0
    | cons a t => rfl
  simp [matchRange, ht, hd, hne]

/-- The range pattern on `w1-w2 at <time>` captures both word runs and
the time. -/
theorem matchRange_run {w1 w2 : List Char} {h m : Nat} (ts : List Char)
    (h1 : w1 ≠ []) (hw1 : ∀ x ∈ w1, isWordChar x = true)
    (h2 : w2 ≠ []) (hw2 : ∀ x ∈ w2, isWordChar x = true)
    (hts : matchTime ts = some (h, m))
    (htsh : ∀ c, ts.head? = some c → isPySpace c = false) :
    matchRange (w1 ++ '-' :: (w2 ++ ' ' :: 'a' :: 't' :: ' ' :: ts)) =
      some (w1, w2, h, m) := by
  obtain ⟨ht1, hd1⟩ := run_split (w2 ++ ' ' :: 'a' :: 't' :: ' ' :: ts) hw1
    (show isWordChar '-' = false by decide)
  obtain ⟨ht2, hd2⟩ := run_split ('a' :: 't' :: ' ' :: ts) hw2
    (show isWordChar ' ' = false by decide)
  have hne1 : w1.isEmpty = false := by
    cases w1 with
    | nil => exact absurd rfl h1
    | cons a t => rfl
  have hne2 : w2.isEmpty = false := by
    cases w2 with
    | nil => exact absurd rfl h2
    | cons a t => rfl
  have hs1 : matchSpaces1 (' ' :: 'a' :: 't' :: ' ' :: ts) =
      some ('a' :: 't' :: ' ' :: ts) := by
    simp [matchSpaces1, List.dropWhile_cons,
      show isPySpace ' ' = true by decide, show isPySpace 'a' = false by decide]
  have hlit : matchLit ['a', 't'] ('a' :: 't' :: ' ' :: ts) = some (' ' :: ts) :=
    matchLit_append ['a', 't'] (' ' :: ts)
  have hs2 : matchSpaces1 (' ' :: ts) = some ts := by
    simp [matchSpaces1, dropWhile_eq_self_of_head htsh,
      show isPySpace ' ' = true by decide]
  simp [matchRange, ht1, hd1, ht2, hd2, hne1, hne2, hs1, hlit, hs2, hts]

/-- The single-weekday pattern on `w at <time>` captures the word run
and the time. -/
theorem matchWeekday_run {w : List Char} {h m : Nat} (ts : List Char)
    (h0 : w ≠ []) (hw : ∀ x ∈ w, isWordChar x = true)
    (hts : matchTime ts = some (h, m))
    (htsh : ∀ c, ts.head? = some c → isPySpace c = false) :
    matchWeekday (w ++ ' ' :: 'a' :: 't' :: ' ' :: ts) = some (w, h, m) := by
  obtain ⟨ht, hd⟩ := run_split ('a' :: 't' :: ' ' :: ts) hw
    (show isWordChar ' ' = false by decide)
  have hne : w.isEmpty = false := by
    cases w with
    | nil => exact absurd rfl h0
    | cons a t => rfl
  have hs1 : matchSpaces1 (' ' :: 'a' :: 't' :: ' ' :: ts) =
      some ('a' :: 't' :: ' ' :: ts) := by
    simp [matchSpaces1, List.dropWhile_cons,
      show isPySpace ' ' = true by decide, show isPySpace 'a' = false by decide]
  have hlit : matchLit ['a', 't'] ('a' :: 't' :: ' ' :: ts) = some (' ' :: ts) :=
    matchLit_append ['a', 't'] (' ' :: ts)
  have hs2 : matchSpaces1 (' ' :: ts) = some ts := by
    simp [matchSpaces1, dropWhile_eq_self_of_head htsh,
      show isPySpace ' ' = true by decide]
  simp [matchWeekday, ht, hd, hne, hs1, hlit, hs2, hts]


/-! ### Master lemmas: full `parse` runs on symbolic token inputs -/

theorem mem_of_getLast?_eq {l : List Char} {c : Char} (h : l.getLast? = some c) :
    c ∈ l := by
  rw [← List.head?_reverse] at h
  rw [← List.mem_reverse]
  exact List.mem_of_mem_head? (by rw [h]; exact rfl)

theorem time_getLast (h m : Nat) :
    (fmt2 h ++ ':' :: fmt2 m).getLast? = some (digitCh (m % 10)) := by
  show (fmt2 h ++ ([':', digitCh (m / 10)] ++ [digitCh (m % 10)])).getLast? = _
  rw [← List.append_assoc, List.getLast?_concat]

theorem time_head (h m : Nat) :
    (fmt2 h ++ ':' :: fmt2 m).head? = some (digitCh (h / 10)) := rfl

theorem time_lower (h m : Nat) (hh : h ≤ 99) (hm : m ≤ 99) :
    ∀ c ∈ fmt2 h ++ ':' :: fmt2 m, lowerChar c = c := by
  intro c hc
  obtain ⟨-, -, l1, -⟩ := digitCh_facts (h / 10) (by omega)
  obtain ⟨-, -, l2, -⟩ := digitCh_facts (h % 10) (by omega)
  obtain ⟨-, -, l3, -⟩ := digitCh_facts (m / 10) (by omega)
  obtain ⟨-, -, l4, -⟩ := digitCh_facts (m % 10) (by omega)
  simp only [fmt2, List.mem_append, List.mem_cons, List.mem_singleton,
    List.not_mem_nil, or_false] at hc
  rcases hc with (rfl | rfl) | rfl | rfl | rfl
  · exact l1
  · exact l2
  · decide
  · exact l3
  · exact l4

theorem time_head_nonspace (h m : Nat) (hh : h ≤ 99) :
    ∀ c, (fmt2 h ++ ':' :: fmt2 m).head? = some c → isPySpace c = false := by
  intro c hc
  rw [time_head] at hc
  obtain ⟨-, sp1, -⟩ := digitCh_facts (h / 10) (by omega)
  cases hc
  exact sp1

theorem time_matchTime (h m : Nat) (hh : h ≤ 99) (hm : m ≤ 99) :
    matchTime (fmt2 h ++ ':' :: fmt2 m) = some (h, m) :=
  matchTime_fmt h m hh hm []

/-- Running `parse` on `<token> at HH:MM` for a lower-case alphabetic
token other than the keyword `daily` reaches pattern 4 and returns what
`_parse_weekday` returns. -/
theorem parse_single_weekday (w : List Char) (h m : Nat)
    (hw0 : w ≠ []) (hw : ∀ x ∈ w, isLowerAlpha x = true)
    (hne : w ≠ ['d', 'a', 'i', 'l', 'y']) (hh : h ≤ 99) (hm : m ≤ 99) :
    parse (w ++ ' ' :: 'a' :: 't' :: ' ' :: (fmt2 h ++ ':' :: fmt2 m)) =
      parseWeekdayRes w h m := by
  have hword : ∀ x ∈ w, isWordChar x = true :=
    fun x hx => (lowerAlpha_facts (hw x hx)).2.2.1
  -- normalisation is the identity on this input
  have hlow : ∀ c ∈ w ++ ' ' :: 'a' :: 't' :: ' ' :: (fmt2 h ++ ':' :: fmt2 m),
      lowerChar c = c := by
    intro c hc
    rcases List.mem_append.mp hc with hcw | hct
    · exact (lowerAlpha_facts (hw c hcw)).2.2.2.1
    · simp only [List.mem_cons] at hct
      rcases hct with rfl | rfl | rfl | rfl | hct
      · decide
      · decide
      · decide
      · decide
      · exact time_lower h m hh hm c hct
  have hhd : ∀ c, (w ++ ' ' :: 'a' :: 't' :: ' ' :: (fmt2 h ++ ':' :: fmt2 m)).head? =
      some c → isPySpace c = false := by
    cases w with
    | nil => exact absurd rfl hw0
    | cons a t =>
      intro c hc
      rw [show ((a :: t) ++ ' ' :: 'a' :: 't' :: ' ' ::
        (fmt2 h ++ ':' :: fmt2 m)).head? = some a from rfl] at hc
      cases hc
      exact (lowerAlpha_facts (hw a (List.mem_cons_self a t))).1
  have hgl : ∀ c, (w ++ ' ' :: 'a' :: 't' :: ' ' ::
      (fmt2 h ++ ':' :: fmt2 m)).getLast? = some c → isPySpace c = false := by
    intro c hc
    rw [List.getLast?_append_of_ne_nil w (by simp),
      show (' ' :: 'a' :: 't' :: ' ' :: (fmt2 h ++ ':' :: fmt2 m)) =
        [' ', 'a', 't', ' '] ++ (fmt2 h ++ ':' :: fmt2 m) from rfl,
      List.getLast?_append_of_ne_nil _ (by
        exact List.append_ne_nil_of_left_ne_nil (by simp [fmt2]) _),
      time_getLast] at hc
    obtain ⟨-, sp4, -⟩ := digitCh_facts (m % 10) (by omega)
    cases hc
    exact sp4
  have hstrip : pyStrip (w ++ ' ' :: 'a' :: 't' :: ' ' ::
      (fmt2 h ++ ':' :: fmt2 m)) = w ++ ' ' :: 'a' :: 't' :: ' ' ::
      (fmt2 h ++ ':' :: fmt2 m) := pyStrip_eq_self hhd hgl
  have hnorm : normalize (w ++ ' ' :: 'a' :: 't' :: ' ' ::
      (fmt2 h ++ ':' :: fmt2 m)) = w ++ ' ' :: 'a' :: 't' :: ' ' ::
      (fmt2 h ++ ':' :: fmt2 m) := normalize_eq_self hlow hhd hgl
  have hnonempty : w ++ ' ' :: 'a' :: 't' :: ' ' ::
      (fmt2 h ++ ':' :: fmt2 m) ≠ [] := by
    cases w with
    | nil => exact absurd rfl hw0
    | cons a t => simp
  -- the space shows the expression is neither shortcut
  have hspace : ' ' ∈ w ++ ' ' :: 'a' :: 't' :: ' ' :: (fmt2 h ++ ':' :: fmt2 m) :=
    List.mem_append_right w (List.mem_cons_self _ _)
  have hnh : ¬ (w ++ ' ' :: 'a' :: 't' :: ' ' :: (fmt2 h ++ ':' :: fmt2 m)) =
      ['h', 'o', 'u', 'r', 'l', 'y'] := list_ne_of_mem hspace (by decide)
  have hnm : ¬ (w ++ ' ' :: 'a' :: 't' :: ' ' :: (fmt2 h ++ ':' :: fmt2 m)) =
      ['m', 'i', 'n', 'u', 't', 'e', 'l', 'y'] := list_ne_of_mem hspace (by decide)
  -- earlier grammar patterns all fail, pattern 4 fires
  have hI := matchInterval_none_at hw (' ' :: (fmt2 h ++ ':' :: fmt2 m))
  have hD := matchDaily_none_at hw hne (fmt2 h ++ ':' :: fmt2 m)
  have hDay : matchDay (w ++ ' ' :: 'a' :: 't' :: ' ' ::
      (fmt2 h ++ ':' :: fmt2 m)) = none := by
    cases w with
    | nil => exact absurd rfl hw0
    | cons a t =>
      exact matchDay_none_alpha (hw a (List.mem_cons_self a t))
        (t ++ ' ' :: 'a' :: 't' :: ' ' :: (fmt2 h ++ ':' :: fmt2 m))
  have hR := matchRange_none_at hw0 hword
    ('a' :: 't' :: ' ' :: (fmt2 h ++ ':' :: fmt2 m))
  have hW := matchWeekday_run (fmt2 h ++ ':' :: fmt2 m) hw0 hword
    (time_matchTime h m hh hm) (time_head_nonspace h m hh)
  rw [parse, if_neg (by rw [hstrip]; exact hnonempty), hnorm]
  simp only [parseNorm, if_neg hnh, if_neg hnm, hI, hD, hDay, hR, hW]

/-- Running `parse` on `<token1>-<token2> at HH:MM` for lower-case
alphabetic tokens reaches pattern 3 and returns what
`_parse_weekday_range` returns. -/
theorem parse_range_expr (w1 w2 : List Char) (h m : Nat)
    (h1 : w1 ≠ []) (hw1 : ∀ x ∈ w1, isLowerAlpha x = true)
    (h2 : w2 ≠ []) (hw2 : ∀ x ∈ w2, isLowerAlpha x = true)
    (hh : h ≤ 99) (hm : m ≤ 99) :
    parse (w1 ++ '-' :: (w2 ++ ' ' :: 'a' :: 't' :: ' ' :: (fmt2 h ++ ':' :: fmt2 m))) =
      parseWeekdayRangeRes w1 w2 h m := by
  have hword1 : ∀ x ∈ w1, isWordChar x = true :=
    fun x hx => (lowerAlpha_facts (hw1 x hx)).2.2.1
  have hword2 : ∀ x ∈ w2, isWordChar x = true :=
    fun x hx => (lowerAlpha_facts (hw2 x hx)).2.2.1
  have hlow : ∀ c ∈ w1 ++ '-' :: (w2 ++ ' ' :: 'a' :: 't' :: ' ' ::
      (fmt2 h ++ ':' :: fmt2 m)), lowerChar c = c := by
    intro c hc
    rcases List.mem_append.mp hc with hcw | hct
    · exact (lowerAlpha_facts (hw1 c hcw)).2.2.2.1
    · simp only [List.mem_cons] at hct
      rcases hct with rfl | hct
      · decide
      · rcases List.mem_append.mp hct with hcw | hct'
        · exact (lowerAlpha_facts (hw2 c hcw)).2.2.2.1
        · simp only [List.mem_cons] at hct'
          rcases hct' with rfl | rfl | rfl | rfl | hct'
          · decide
          · decide
          · decide
          · decide
          · exact time_lower h m hh hm c hct'
  have hhd : ∀ c, (w1 ++ '-' :: (w2 ++ ' ' :: 'a' :: 't' :: ' ' ::
      (fmt2 h ++ ':' :: fmt2 m))).head? = some c → isPySpace c = false := by
    cases w1 with
    | nil => exact absurd rfl h1
    | cons a t =>
      intro c hc
      rw [show ((a :: t) ++ '-' :: (w2 ++ ' ' :: 'a' :: 't' :: ' ' ::
        (fmt2 h ++ ':' :: fmt2 m))).head? = some a from rfl] at hc
      cases hc
      exact (lowerAlpha_facts (hw1 a (List.mem_cons_self a t))).1
  have hgl : ∀ c, (w1 ++ '-' :: (w2 ++ ' ' :: 'a' :: 't' :: ' ' ::
      (fmt2 h ++ ':' :: fmt2 m))).getLast? = some c → isPySpace c = false := by
    intro c hc
    rw [List.getLast?_append_of_ne_nil w1 (by simp),
      show ('-' :: (w2 ++ ' ' :: 'a' :: 't' :: ' ' :: (fmt2 h ++ ':' :: fmt2 m))) =
        ['-'] ++ (w2 ++ ' ' :: 'a' :: 't' :: ' ' :: (fmt2 h ++ ':' :: fmt2 m)) from rfl,
      List.getLast?_append_of_ne_nil _ (List.append_ne_nil_of_left_ne_nil h2 _),
      List.getLast?_append_of_ne_nil w2 (by simp),
      show (' ' :: 'a' :: 't' :: ' ' :: (fmt2 h ++ ':' :: fmt2 m)) =
        [' ', 'a', 't', ' '] ++ (fmt2 h ++ ':' :: fmt2 m) from rfl,
      List.getLast?_append_of_ne_nil _ (by
        exact List.append_ne_nil_of_left_ne_nil (by simp [fmt2]) _),
      time_getLast] at hc
    obtain ⟨-, sp4, -⟩ := digitCh_facts (m % 10) (by omega)
    cases hc
    exact sp4
  have hstrip : pyStrip (w1 ++ '-' :: (w2 ++ ' ' :: 'a' :: 't' :: ' ' ::
      (fmt2 h ++ ':' :: fmt2 m))) = w1 ++ '-' :: (w2 ++ ' ' :: 'a' :: 't' :: ' ' ::
      (fmt2 h ++ ':' :: fmt2 m)) := pyStrip_eq_self hhd hgl
  have hnorm := normalize_eq_self hlow hhd hgl
  have hnonempty : w1 ++ '-' :: (w2 ++ ' ' :: 'a' :: 't' :: ' ' ::
      (fmt2 h ++ ':' :: fmt2 m)) ≠ [] := by
    cases w1 with
    | nil => exact absurd rfl h1
    | cons a t => simp
  have hdash : '-' ∈ w1 ++ '-' :: (w2 ++ ' ' :: 'a' :: 't' :: ' ' ::
      (fmt2 h ++ ':' :: fmt2 m)) := List.mem_append_right w1 (List.mem_cons_self _ _)
  have hnh := list_ne_of_mem hdash
    (show '-' ∉ ['h', 'o', 'u', 'r', 'l', 'y'] by decide)
  have hnm := list_ne_of_mem hdash
    (show '-' ∉ ['m', 'i', 'n', 'u', 't', 'e', 'l', 'y'] by decide)
  have hI := matchInterval_none_sep hw1
    (w2 ++ ' ' :: 'a' :: 't' :: ' ' :: (fmt2 h ++ ':' :: fmt2 m))
  have hD := matchDaily_none_sep hw1
    (w2 ++ ' ' :: 'a' :: 't' :: ' ' :: (fmt2 h ++ ':' :: fmt2 m))
  have hDay : matchDay (w1 ++ '-' :: (w2 ++ ' ' :: 'a' :: 't' :: ' ' ::
      (fmt2 h ++ ':' :: fmt2 m))) = none := by
    cases w1 with
    | nil => exact absurd rfl h1
    | cons a t =>
      exact matchDay_none_alpha (hw1 a (List.mem_cons_self a t))
        (t ++ '-' :: (w2 ++ ' ' :: 'a' :: 't' :: ' ' :: (fmt2 h ++ ':' :: fmt2 m)))
  have hR := matchRange_run (fmt2 h ++ ':' :: fmt2 m) h1 hword1 h2 hword2
    (time_matchTime h m hh hm) (time_head_nonspace h m hh)
  rw [parse, if_neg (by rw [hstrip]; exact hnonempty), hnorm]
  simp only [parseNorm, if_neg hnh, if_neg hnm, hI, hD, hDay, hR]

/-- Running `parse` on `every <digits><word>` for a non-empty digit run
and a non-empty lower-case alphabetic word: the interval regex matches,
the word is the whole captured unit, and the unit table decides the
outcome. -/
theorem parse_every_expr (ds w : List Char)
    (hds0 : ds ≠ []) (hds : ∀ x ∈ ds, Char.isDigit x = true)
    (hw0 : w ≠ []) (hw : ∀ x ∈ w, isLowerAlpha x = true) :
    parse (['e', 'v', 'e', 'r', 'y', ' '] ++ (ds ++ w)) =
      (match unitLookup w with
       | none => PResult.error (.invalidIntervalUnit w)
       | some mult => PResult.ok (.interval (digitsToNat ds * mult))) := by
  have hlow : ∀ c ∈ ['e', 'v', 'e', 'r', 'y', ' '] ++ (ds ++ w), lowerChar c = c := by
    intro c hc
    rcases List.mem_append.mp hc with hcl | hct
    · fin_cases hcl <;> decide
    · rcases List.mem_append.mp hct with hcd | hcw
      · exact (digit_facts (hds c hcd)).2.2
      · exact (lowerAlpha_facts (hw c hcw)).2.2.2.1
  have hhd : ∀ c, (['e', 'v', 'e', 'r', 'y', ' '] ++ (ds ++ w)).head? = some c →
      isPySpace c = false := by
    intro c hc
    cases hc
    decide
  have hgl : ∀ c, (['e', 'v', 'e', 'r', 'y', ' '] ++ (ds ++ w)).getLast? = some c →
      isPySpace c = false := by
    intro c hc
    rw [List.getLast?_append_of_ne_nil _ (List.append_ne_nil_of_left_ne_nil hds0 w),
      List.getLast?_append_of_ne_nil ds hw0] at hc
    exact (lowerAlpha_facts (hw c (mem_of_getLast?_eq hc))).1
  have hstrip : pyStrip (['e', 'v', 'e', 'r', 'y', ' '] ++ (ds ++ w)) =
      ['e', 'v', 'e', 'r', 'y', ' '] ++ (ds ++ w) := pyStrip_eq_self hhd hgl
  have hnorm := normalize_eq_self hlow hhd hgl
  have hspace : ' ' ∈ ['e', 'v', 'e', 'r', 'y', ' '] ++ (ds ++ w) :=
    List.mem_append_left _ (by decide)
  have hnh := list_ne_of_mem hspace
    (show ' ' ∉ ['h', 'o', 'u', 'r', 'l', 'y'] by decide)
  have hnm := list_ne_of_mem hspace
    (show ' ' ∉ ['m', 'i', 'n', 'u', 't', 'e', 'l', 'y'] by decide)
  have hdse : ds.isEmpty = false := by
    cases ds with
    | nil => exact absurd rfl hds0
    | cons a t => rfl
  have hdhd : ∀ c, (ds ++ w).head? = some c → isPySpace c = false := by
    cases ds with
    | nil => exact absurd rfl hds0
    | cons a t =>
      intro c hc
      rw [show ((a :: t) ++ w).head? = some a from rfl] at hc
      cases hc
      exact (digit_facts (hds a (List.mem_cons_self a t))).1
  have hInt : matchInterval ('e' :: 'v' :: 'e' :: 'r' :: 'y' :: ' ' :: (ds ++ w)) =
      some (digitsToNat ds, w) := by
    cases w with
    | nil => exact absurd rfl hw0
    | cons b t =>
      have hml2 : matchLit ['e', 'v', 'e', 'r', 'y']
          ('e' :: 'v' :: 'e' :: 'r' :: 'y' :: ' ' :: (ds ++ b :: t)) =
          some (' ' :: (ds ++ b :: t)) :=
        matchLit_append ['e', 'v', 'e', 'r', 'y'] (' ' :: (ds ++ b :: t))
      have hs : matchSpaces1 (' ' :: (ds ++ b :: t)) = some (ds ++ b :: t) := by
        simp [matchSpaces1, dropWhile_eq_self_of_head hdhd,
          show isPySpace ' ' = true by decide]
      obtain ⟨bf1, -⟩ := lowerAlpha_facts (hw b (List.mem_cons_self b t))
      obtain ⟨ht, hd⟩ := run_split t hds
        (lowerAlpha_facts (hw b (List.mem_cons_self b t))).2.1
      have htw : (b :: t).takeWhile isWordChar = b :: t :=
        takeWhile_all (fun x hx => (lowerAlpha_facts (hw x hx)).2.2.1)
      have hbw : isWordChar b = true :=
        (lowerAlpha_facts (hw b (List.mem_cons_self b t))).2.2.1
      simp [matchInterval, hml2, hs, ht, hd, hdse, hbw, htw]
  have hnonempty : ['e', 'v', 'e', 'r', 'y', ' '] ++ (ds ++ w) ≠ [] := by simp
  have hnh2 : ¬ ('e' :: 'v' :: 'e' :: 'r' :: 'y' :: ' ' :: (ds ++ w)) =
      ['h', 'o', 'u', 'r', 'l', 'y'] := hnh
  have hnm2 : ¬ ('e' :: 'v' :: 'e' :: 'r' :: 'y' :: ' ' :: (ds ++ w)) =
      ['m', 'i', 'n', 'u', 't', 'e', 'l', 'y'] := hnm
  rw [parse, if_neg (by rw [hstrip]; exact hnonempty), hnorm]
  show parseNorm ('e' :: 'v' :: 'e' :: 'r' :: 'y' :: ' ' :: (ds ++ w)) = _
  simp only [parseNorm, if_neg hnh2, if_neg hnm2, hInt]
  cases hu : unitLookup w with
  | none => simp [hu, parseIntervalRes]
  | some mult => simp [hu, parseIntervalRes]


/-! ### Table facts and handler evaluation -/

theorem weekday_props : ∀ p ∈ WEEKDAYS, p.1 ≠ [] ∧
    (∀ x ∈ p.1, isLowerAlpha x = true) ∧ p.1 ≠ ['d', 'a', 'i', 'l', 'y'] ∧
    weekdayLookup p.1 = some p.2 := by decide

theorem pyLower_nil_iff (l : List Char) : pyLower l = [] ↔ l = [] := by
  cases l <;> simp [pyLower]

theorem pyLower_lowerAlpha {w : List Char} (hw : ∀ x ∈ w, isLowerAlpha x = true) :
    pyLower w = w :=
  pyLower_eq_self_of (fun c hc => (lowerAlpha_facts (hw c hc)).2.2.2.1)

theorem validateTime_none_iff (h m : Nat) :
    validateTime h m = none ↔ (h ≤ 23 ∧ m ≤ 59) := by
  rw [validateTime]
  split_ifs with h1 h2 <;> simp <;> omega

theorem validateTime_hour {h : Nat} (m : Nat) (hh : 24 ≤ h) :
    validateTime h m = some (.invalidTimeHour h) := by
  rw [validateTime, if_pos (by omega)]

theorem validateTime_minute {h m : Nat} (hh : h ≤ 23) (hm : 60 ≤ m) :
    validateTime h m = some (.invalidTimeMinute m) := by
  rw [validateTime, if_neg (by omega), if_pos (by omega)]

/-! ### Structural invariant of parse results (claim C6 support) -/

theorem entry_weekday_ok (d h m : Nat) :
    entryOkB [("Weekday", d), ("Hour", h), ("Minute", m)] = true := by
  simp only [entryOkB, List.any_cons, List.any_nil]
  decide

theorem entry_day_ok (d h m : Nat) :
    entryOkB [("Day", d), ("Hour", h), ("Minute", m)] = true := by
  simp only [entryOkB, List.any_cons, List.any_nil]
  decide

theorem entry_daily_ok (h m : Nat) :
    entryOkB [("Hour", h), ("Minute", m)] = true := by
  simp only [entryOkB, List.any_cons, List.any_nil]
  decide

theorem parseIntervalRes_ok {v : Nat} {u : List Char} {s : Sched}
    (h : parseIntervalRes v u = .ok s) : schedOk s := by
  rw [parseIntervalRes] at h
  split at h
  · exact absurd h (by simp)
  · cases h
    trivial

theorem parseDailyRes_ok {hr mi : Nat} {s : Sched}
    (h : parseDailyRes hr mi = .ok s) : schedOk s := by
  rw [parseDailyRes] at h
  split at h
  · exact absurd h (by simp)
  · cases h
    exact entry_daily_ok hr mi

theorem parseWeekdayRes_ok {w : List Char} {hr mi : Nat} {s : Sched}
    (h : parseWeekdayRes w hr mi = .ok s) : schedOk s := by
  rw [parseWeekdayRes] at h
  split at h
  · exact absurd h (by simp)
  · split at h
    · exact absurd h (by simp)
    · cases h
      exact entry_weekday_ok _ hr mi

theorem parseWeekdayRangeRes_ok {w1 w2 : List Char} {hr mi : Nat} {s : Sched}
    (h : parseWeekdayRangeRes w1 w2 hr mi = .ok s) : schedOk s := by
  rw [parseWeekdayRangeRes] at h
  split at h
  · exact absurd h (by simp)
  · split at h
    · cases h
      intro e he
      rw [List.mem_map] at he
      obtain ⟨d, -, rfl⟩ := he
      exact entry_weekday_ok d hr mi
    · exact absurd h (by simp)

theorem parseDayRes_ok {d hr mi : Nat} {s : Sched}
    (h : parseDayRes d hr mi = .ok s) : schedOk s := by
  rw [parseDayRes] at h
  split at h
  · exact absurd h (by simp)
  · split at h
    · cases h
      exact entry_day_ok d hr mi
    · exact absurd h (by simp)

theorem parseNorm_ok {e : List Char} {s : Sched} (h : parseNorm e = .ok s) :
    schedOk s := by
  rw [parseNorm] at h
  split_ifs at h with h1 h2
  · cases h
    trivial
  · cases h
    trivial
  · split at h
    · split at h
      · exact absurd h (by simp)
      · exact parseIntervalRes_ok h
    · split at h
      · exact parseDailyRes_ok h
      · split at h
        · exact parseDayRes_ok h
        · split at h
          · exact parseWeekdayRangeRes_ok h
          · split at h
            · exact parseWeekdayRes_ok h
            · exact absurd h (by simp)

theorem parse_ok_schedOk {cs : List Char} {s : Sched} (h : parse cs = .ok s) :
    schedOk s := by
  rw [parse] at h
  by_cases hc : pyStrip cs = []
  · rw [if_pos hc] at h
    exact absurd h (by simp)
  · rw [if_neg hc] at h
    exact parseNorm_ok h

/-! ### Stripping with trailing garbage (claim C10 support) -/

theorem strip_token_trail (x rest : List Char) (hx0 : x ≠ [])
    (hh : ∀ c, x.head? = some c → isPySpace c = false)
    (hl : ∀ c, x.getLast? = some c → isPySpace c = false) :
    pyStrip (x ++ ' ' :: rest) = x ∨
    ∃ t, pyStrip (x ++ ' ' :: rest) = x ++ ' ' :: t := by
  have h1 : List.dropWhile isPySpace (x ++ ' ' :: rest) = x ++ ' ' :: rest := by
    apply dropWhile_eq_self_of_head
    cases x with
    | nil => exact absurd rfl hx0
    | cons a t =>
      intro c hc
      rw [show ((a :: t) ++ ' ' :: rest).head? = some a from rfl] at hc
      cases hc
      exact hh a rfl
  rw [pyStrip, h1, List.reverse_append,
    show (' ' :: rest).reverse = rest.reverse ++ [' '] from List.reverse_cons .. ,
    List.dropWhile_append]
  by_cases he : (List.dropWhile isPySpace (rest.reverse ++ [' '])).isEmpty = true
  · rw [if_pos he]
    left
    rw [dropWhile_eq_self_of_head
      (fun c hc => by rw [List.head?_reverse] at hc; exact hl c hc),
      List.reverse_reverse]
  · rw [if_neg he]
    right
    have hsne : List.dropWhile isPySpace (rest.reverse ++ [' ']) ≠ [] := by
      intro hnil
      rw [hnil] at he
      exact he rfl
    have hgl : (List.dropWhile isPySpace (rest.reverse ++ [' '])).getLast? =
        some ' ' := by
      obtain ⟨k, hk⟩ := dropWhile_eq_drop isPySpace (rest.reverse ++ [' '])
      have hdne : List.drop k (rest.reverse ++ [' ']) ≠ [] := by
        rw [← hk]
        exact hsne
      rw [hk]
      calc (List.drop k (rest.reverse ++ [' '])).getLast?
          = ((List.take k (rest.reverse ++ [' '])) ++
              List.drop k (rest.reverse ++ [' '])).getLast? :=
            (List.getLast?_append_of_ne_nil _ hdne).symm
        _ = (rest.reverse ++ [' ']).getLast? := by rw [List.take_append_drop]
        _ = some ' ' := List.getLast?_concat _
    have hsplit : (List.dropWhile isPySpace (rest.reverse ++ [' '])).dropLast ++
        [' '] = List.dropWhile isPySpace (rest.reverse ++ [' ']) :=
      List.dropLast_append_getLast? ' ' (by rw [Option.mem_def, hgl])
    refine ⟨(List.dropWhile isPySpace (rest.reverse ++ [' '])).dropLast.reverse, ?_⟩
    rw [← hsplit]
    simp


/-! ### Claim theorems -/

/-- C1: for every non-negative decimal integer literal N (a non-empty
digit string) and unit u in the table {s, m, h, d},
`parse ("every " ++ N ++ u)` succeeds and returns an Interval schedule
whose seconds value is N times the table multiplier (1, 60, 3600, 86400
respectively). -/
theorem claim_C1 : ∀ ds : List Char, ds ≠ [] → (∀ x ∈ ds, Char.isDigit x = true) →
    ∀ p ∈ INTERVAL_UNITS,
    parse (['e', 'v', 'e', 'r', 'y', ' '] ++ (ds ++ p.1)) =
      .ok (.interval (digitsToNat ds * p.2)) := by
  intro ds h0 hd p hp
  have hu : unitLookup p.1 = some p.2 ∧ p.1 ≠ [] ∧
      (∀ x ∈ p.1, isLowerAlpha x = true) := by
    fin_cases hp <;> exact ⟨by decide, by decide, by decide⟩
  rw [parse_every_expr ds p.1 h0 hd hu.2.1 hu.2.2, hu.1]

theorem claim_C1_witness :
    parse (['e', 'v', 'e', 'r', 'y', ' '] ++ (['1', '0'] ++ ['m'])) =
      .ok (.interval 600) :=
  claim_C1 ['1', '0'] (by decide) (by decide) (['m'], 60) (by decide)

/-- C2: for every pair of weekday names in the table and every in-range
time, parsing `d1-d2 at HH:MM` yields a Calendar schedule whose entries
are exactly the forward modulo-7 walk from d1's number to d2's number
inclusive (so the range wraps through Saturday(6) to Sunday(0) when d2's
number is less and is never empty or reversed: `rangeDays a b` equals
the walk `a, a+1 mod 7, ..., b` of length `(b - a) mod 7 + 1`), each
entry carrying the same Hour and Minute; in particular
`parse "mon-fri at 18:00"` yields exactly the 5 entries with Weekday
1..5, Hour 18, Minute 0. -/
theorem claim_C2 :
    (∀ p1 ∈ WEEKDAYS, ∀ p2 ∈ WEEKDAYS, ∀ h m : Nat, h ≤ 23 → m ≤ 59 →
      parse (p1.1 ++ '-' :: (p2.1 ++ ' ' :: 'a' :: 't' :: ' ' ::
          (fmt2 h ++ ':' :: fmt2 m))) =
        .ok (.calendarList ((rangeDays p1.2 p2.2).map
          (fun d => [("Weekday", d), ("Hour", h), ("Minute", m)])))) ∧
    (∀ a < 7, ∀ b < 7, rangeDays a b =
      (List.range ((b + 7 - a) % 7 + 1)).map (fun i => (a + i) % 7)) ∧
    parse ("mon-fri at 18:00").data = .ok (.calendarList
      [[("Weekday", 1), ("Hour", 18), ("Minute", 0)],
       [("Weekday", 2), ("Hour", 18), ("Minute", 0)],
       [("Weekday", 3), ("Hour", 18), ("Minute", 0)],
       [("Weekday", 4), ("Hour", 18), ("Minute", 0)],
       [("Weekday", 5), ("Hour", 18), ("Minute", 0)]]) := by
  refine ⟨?_, by decide, by decide⟩
  intro p1 hp1 p2 hp2 h m hh hm
  obtain ⟨n1, l1, -, k1⟩ := weekday_props p1 hp1
  obtain ⟨n2, l2, -, k2⟩ := weekday_props p2 hp2
  rw [parse_range_expr p1.1 p2.1 h m n1 l1 n2 l2 (by omega) (by omega)]
  simp only [parseWeekdayRangeRes, (validateTime_none_iff h m).mpr ⟨hh, hm⟩,
    pyLower_lowerAlpha l1, pyLower_lowerAlpha l2, k1, k2]

theorem claim_C2_witness :
    parse (['m', 'o', 'n'] ++ '-' :: (['f', 'r', 'i'] ++ ' ' :: 'a' :: 't' :: ' ' ::
        (fmt2 18 ++ ':' :: fmt2 0))) =
      .ok (.calendarList ((rangeDays 1 5).map
        (fun d => [("Weekday", d), ("Hour", 18), ("Minute", 0)]))) :=
  claim_C2.1 (['m', 'o', 'n'], 1) (by decide) (['f', 'r', 'i'], 5) (by decide)
    18 0 (by decide) (by decide)

/-- C3: the raw-dictionary entry point: a `type` of `"interval"` with a
`seconds` field copies the seconds value verbatim (no validation; a
missing `seconds` is the Python `KeyError`); a `type` of `"calendar"`
copies every non-`type` item verbatim with no Hour/Minute bounds check;
any other `type` (including absence) fails with the
`Invalid schedule type` error. -/
theorem claim_C3 :
    (∀ d : List (String × PyVal), ∀ v : PyVal,
      dictGet d "type" = some (.vstr "interval") → dictGet d "seconds" = some v →
        parse_raw d = .okInterval v) ∧
    (∀ d : List (String × PyVal),
      dictGet d "type" = some (.vstr "interval") → dictGet d "seconds" = none →
        parse_raw d = .errKey "seconds") ∧
    (∀ d : List (String × PyVal),
      dictGet d "type" = some (.vstr "calendar") →
        parse_raw d = .okCalendar (d.filter (fun p => decide (p.1 ≠ "type")))) ∧
    (∀ d : List (String × PyVal), ∀ t : Option PyVal,
      dictGet d "type" = t → t ≠ some (.vstr "interval") →
        t ≠ some (.vstr "calendar") → parse_raw d = .errType t) ∧
    parse_raw [("type", .vstr "interval"), ("seconds", .vint 3600)] =
      .okInterval (.vint 3600) ∧
    parse_raw [("type", .vstr "calendar"), ("Hour", .vint 9), ("Minute", .vint 0)] =
      .okCalendar [("Hour", .vint 9), ("Minute", .vint 0)] ∧
    parse_raw [("type", .vstr "calendar"), ("Hour", .vint 99), ("Minute", .vint 77)] =
      .okCalendar [("Hour", .vint 99), ("Minute", .vint 77)] ∧
    parse_raw [("seconds", .vint 5)] = .errType none := by
  refine ⟨?_, ?_, ?_, ?_, by decide, by decide, by decide, by decide⟩
  · intro d v ht hs
    simp [parse_raw, ht, hs]
  · intro d ht hs
    simp [parse_raw, ht, hs]
  · intro d ht
    simp [parse_raw, ht]
  · intro d t hd ht1 ht2
    cases t with
    | none => simp [parse_raw, hd]
    | some v =>
      cases v with
      | vint n => simp [parse_raw, hd]
      | vstr str =>
        have h1 : str ≠ "interval" := fun e => ht1 (by rw [e])
        have h2 : str ≠ "calendar" := fun e => ht2 (by rw [e])
        simp [parse_raw, hd, h1, h2]

theorem claim_C3_witness :
    parse_raw [("type", .vstr "interval"), ("seconds", .vint 7)] =
      .okInterval (.vint 7) ∧
    parse_raw [("type", .vstr "calendar"), ("Day", .vint 12)] =
      .okCalendar [("Day", .vint 12)] ∧
    parse_raw [("type", .vstr "bogus")] = .errType (some (.vstr "bogus")) :=
  ⟨claim_C3.1 [("type", .vstr "interval"), ("seconds", .vint 7)] (.vint 7)
      (by decide) (by decide),
   claim_C3.2.2.1 [("type", .vstr "calendar"), ("Day", .vint 12)] (by decide),
   claim_C3.2.2.2.1 [("type", .vstr "bogus")] (some (.vstr "bogus"))
      (by decide) (by decide) (by decide)⟩

/-- C4: when the leading tokens match `every <N><word>` but the word is
not a recognised unit, parse fails with the `Invalid interval unit`
error rather than falling through to later patterns or reporting
`Invalid schedule format`; in particular `parse "every 10x"` raises it. -/
theorem claim_C4 : (∀ ds w : List Char, ds ≠ [] →
    (∀ x ∈ ds, Char.isDigit x = true) → w ≠ [] →
    (∀ x ∈ w, isLowerAlpha x = true) → unitLookup w = none →
    parse (['e', 'v', 'e', 'r', 'y', ' '] ++ (ds ++ w)) =
      .error (.invalidIntervalUnit w)) ∧
    parse ("every 10x").data = .error (.invalidIntervalUnit ['x']) := by
  refine ⟨?_, by decide⟩
  intro ds w h0 hd hw0 hw hu
  rw [parse_every_expr ds w h0 hd hw0 hw, hu]

theorem claim_C4_witness :
    parse (['e', 'v', 'e', 'r', 'y', ' '] ++ (['1', '0'] ++ ['x'])) =
      .error (.invalidIntervalUnit ['x']) :=
  claim_C4.1 ['1', '0'] ['x'] (by decide) (by decide) (by decide) (by decide)
    (by decide)

/-- C5: the time validator accepts exactly Hour in [0,23] and Minute in
[0,59] and names the failing bound and value (`invalidTimeHour` /
`invalidTimeMinute` are the two shapes of the `Invalid time format`
message); the day-of-month handler accepts exactly Day in [1,31] and
rejects the rest with `Invalid day of month`; at the parse level,
23:59 is accepted, 24:00 and 09:60 are rejected with the time error,
day 1 and 31 are accepted, day 0 and 32 rejected. -/
theorem claim_C5 :
    (∀ h m : Nat, validateTime h m = none ↔ (h ≤ 23 ∧ m ≤ 59)) ∧
    (∀ h m : Nat, 24 ≤ h → validateTime h m = some (.invalidTimeHour h)) ∧
    (∀ h m : Nat, h ≤ 23 → 60 ≤ m → validateTime h m = some (.invalidTimeMinute m)) ∧
    (∀ d h m : Nat, h ≤ 23 → m ≤ 59 → 1 ≤ d → d ≤ 31 →
      parseDayRes d h m = .ok (.calendar [("Day", d), ("Hour", h), ("Minute", m)])) ∧
    (∀ d h m : Nat, h ≤ 23 → m ≤ 59 → ¬ (1 ≤ d ∧ d ≤ 31) →
      parseDayRes d h m = .error (.invalidDayOfMonth d)) ∧
    parse ("daily at 23:59").data = .ok (.calendar [("Hour", 23), ("Minute", 59)]) ∧
    parse ("daily at 24:00").data = .error (.invalidTimeHour 24) ∧
    parse ("daily at 09:60").data = .error (.invalidTimeMinute 60) ∧
    parse ("1st at 10:00").data = .ok (.calendar [("Day", 1), ("Hour", 10), ("Minute", 0)]) ∧
    parse ("31st at 10:00").data =
      .ok (.calendar [("Day", 31), ("Hour", 10), ("Minute", 0)]) ∧
    parse ("0th at 10:00").data = .error (.invalidDayOfMonth 0) ∧
    parse ("32nd at 10:00").data = .error (.invalidDayOfMonth 32) := by
  refine ⟨validateTime_none_iff, fun h m hh => validateTime_hour m hh,
    fun h m hh hm => validateTime_minute hh hm, ?_, ?_,
    by decide, by decide, by decide, by decide, by decide, by decide, by decide⟩
  · intro d h m hh hm h1 h2
    simp only [parseDayRes, (validateTime_none_iff h m).mpr ⟨hh, hm⟩,
      if_pos (And.intro h1 h2)]
  · intro d h m hh hm hd
    simp only [parseDayRes, (validateTime_none_iff h m).mpr ⟨hh, hm⟩, if_neg hd]

theorem claim_C5_witness :
    (validateTime 23 59 = none ↔ (23 ≤ 23 ∧ 59 ≤ 59)) ∧
    validateTime 24 0 = some (.invalidTimeHour 24) ∧
    validateTime 23 60 = some (.invalidTimeMinute 60) ∧
    parseDayRes 31 10 0 = .ok (.calendar [("Day", 31), ("Hour", 10), ("Minute", 0)]) ∧
    parseDayRes 32 10 0 = .error (.invalidDayOfMonth 32) :=
  ⟨claim_C5.1 23 59, claim_C5.2.1 24 0 (by decide),
   claim_C5.2.2.1 23 60 (by decide) (by decide),
   claim_C5.2.2.2.1 31 10 0 (by decide) (by decide) (by decide) (by decide),
   claim_C5.2.2.2.2.1 32 10 0 (by decide) (by decide) (by decide)⟩

/-- C6: every Calendar entry of any successful parse contains Hour and
Minute and never both Weekday and Day; and in each pattern handler the
Hour/Minute bounds are checked before the Weekday or Day field, so an
expression with both an out-of-range time and an invalid weekday or day
fails with the time error. -/
theorem claim_C6 :
    (∀ cs : List Char, ∀ s : Sched, parse cs = .ok s → schedOk s) ∧
    (∀ w : List Char, ∀ h m : Nat, ∀ e : PErr, validateTime h m = some e →
      parseWeekdayRes w h m = .error e) ∧
    (∀ w1 w2 : List Char, ∀ h m : Nat, ∀ e : PErr, validateTime h m = some e →
      parseWeekdayRangeRes w1 w2 h m = .error e) ∧
    (∀ d h m : Nat, ∀ e : PErr, validateTime h m = some e →
      parseDayRes d h m = .error e) ∧
    parse ("badday at 24:00").data = .error (.invalidTimeHour 24) ∧
    parse ("32nd at 24:00").data = .error (.invalidTimeHour 24) ∧
    parse ("xxx-yyy at 24:00").data = .error (.invalidTimeHour 24) := by
  refine ⟨fun cs s h => parse_ok_schedOk h, ?_, ?_, ?_, by decide, by decide, by decide⟩
  · intro w h m e hv
    simp only [parseWeekdayRes, hv]
  · intro w1 w2 h m e hv
    simp only [parseWeekdayRangeRes, hv]
  · intro d h m e hv
    simp only [parseDayRes, hv]

theorem claim_C6_witness :
    schedOk (.calendar [("Weekday", 1), ("Hour", 10), ("Minute", 0)]) ∧
    parseWeekdayRes ['z'] 24 0 = .error (.invalidTimeHour 24) :=
  ⟨claim_C6.1 (("mon at 10:00").data) (.calendar
      [("Weekday", 1), ("Hour", 10), ("Minute", 0)]) (by decide),
   claim_C6.2.1 ['z'] 24 0 (.invalidTimeHour 24) (by decide)⟩

/-- C7: all recognised spellings of a weekday (full names, 3-letter
abbreviations, and the aliases tues/thur/thurs) produce the Weekday
number the table assigns to that day in `parse "<name> at 10:00"`; and
for every alphabetic token outside the name table (other than the
reserved keyword `daily`, which the earlier daily-at pattern consumes),
the single-weekday form fails with `Invalid weekday` and the range form
fails with `Invalid weekday range` before any entries are generated. -/
theorem claim_C7 :
    (∀ p ∈ WEEKDAYS, parse (p.1 ++ (" at 10:00").data) =
      .ok (.calendar [("Weekday", p.2), ("Hour", 10), ("Minute", 0)])) ∧
    (∀ w : List Char, w ≠ [] → (∀ x ∈ w, isLowerAlpha x = true) →
      weekdayLookup w = none → w ≠ ['d', 'a', 'i', 'l', 'y'] →
      parse (w ++ (" at 10:00").data) = .error (.invalidWeekday w) ∧
      parse (w ++ ("-mon at 10:00").data) =
        .error (.invalidWeekdayRange w ['m', 'o', 'n']) ∧
      parse (("mon-").data ++ (w ++ (" at 10:00").data)) =
        .error (.invalidWeekdayRange ['m', 'o', 'n'] w)) := by
  refine ⟨by decide, ?_⟩
  intro w h0 hl hlk hne
  have hplw : pyLower w = w := pyLower_lowerAlpha hl
  refine ⟨?_, ?_, ?_⟩
  · show parse (w ++ ' ' :: 'a' :: 't' :: ' ' :: (fmt2 10 ++ ':' :: fmt2 0)) = _
    rw [parse_single_weekday w 10 0 h0 hl hne (by omega) (by omega)]
    simp only [parseWeekdayRes, show validateTime 10 0 = none by decide, hplw, hlk]
  · show parse (w ++ '-' :: (['m', 'o', 'n'] ++ ' ' :: 'a' :: 't' :: ' ' ::
      (fmt2 10 ++ ':' :: fmt2 0))) = _
    rw [parse_range_expr w ['m', 'o', 'n'] 10 0 h0 hl (by decide) (by decide)
      (by omega) (by omega)]
    simp only [parseWeekdayRangeRes, show validateTime 10 0 = none by decide,
      hplw, hlk, show pyLower ['m', 'o', 'n'] = ['m', 'o', 'n'] by decide,
      show weekdayLookup ['m', 'o', 'n'] = some 1 by decide]
  · show parse (['m', 'o', 'n'] ++ '-' :: (w ++ ' ' :: 'a' :: 't' :: ' ' ::
      (fmt2 10 ++ ':' :: fmt2 0))) = _
    rw [parse_range_expr ['m', 'o', 'n'] w 10 0 (by decide) (by decide) h0 hl
      (by omega) (by omega)]
    simp only [parseWeekdayRangeRes, show validateTime 10 0 = none by decide,
      hplw, hlk, show pyLower ['m', 'o', 'n'] = ['m', 'o', 'n'] by decide,
      show weekdayLookup ['m', 'o', 'n'] = some 1 by decide]

theorem claim_C7_witness :
    parse ((['m', 'o', 'n', 'd', 'a', 'y'], 1).1 ++ (" at 10:00").data) =
      .ok (.calendar [("Weekday", 1), ("Hour", 10), ("Minute", 0)]) ∧
    parse (['x', 'y', 'z'] ++ (" at 10:00").data) =
      .error (.invalidWeekday ['x', 'y', 'z']) :=
  ⟨claim_C7.1 (['m', 'o', 'n', 'd', 'a', 'y'], 1) (by decide),
   (claim_C7.2 ['x', 'y', 'z'] (by decide) (by decide) (by decide) (by decide)).1⟩

/-- C9: the shortcut `hourly` yields the same Interval schedule as
`every 1h`, namely 3600 seconds, and `minutely` yields 60 seconds. -/
theorem claim_C9 :
    parse ("hourly").data = .ok (.interval 3600) ∧
    parse ("hourly").data = parse ("every 1h").data ∧
    parse ("minutely").data = .ok (.interval 60) :=
  ⟨by decide, by decide, by decide⟩


/-- C8 support: leading blanks before the digits are consumed by `\\s+`. -/
theorem dropWhile_replicate_digits (n : Nat) :
    List.dropWhile isPySpace (List.replicate n ' ' ++ ['1', '0', 'm']) =
      ['1', '0', 'm'] := by
  induction n with
  | zero => decide
  | succ k ih =>
    rw [List.replicate_succ,
      show ((' ' :: List.replicate k ' ') ++ ['1', '0', 'm']) =
        ' ' :: (List.replicate k ' ' ++ ['1', '0', 'm']) from rfl,
      List.dropWhile_cons, if_pos (by decide)]
    exact ih

/-- C8 support: the normalised interval expression with an arbitrary
run of blanks between `every` and the number parses to 600 seconds. -/
theorem parse_every_blanks (n : Nat) :
    parse (['e', 'v', 'e', 'r', 'y'] ++ List.replicate (n + 1) ' ' ++
      ['1', '0', 'm']) = .ok (.interval 600) := by
  have hlow : ∀ c ∈ ['e', 'v', 'e', 'r', 'y'] ++ List.replicate (n + 1) ' ' ++
      ['1', '0', 'm'], lowerChar c = c := by
    intro c hc
    rcases List.mem_append.mp hc with hc1 | hc2
    · rcases List.mem_append.mp hc1 with hc3 | hc4
      · fin_cases hc3 <;> decide
      · rw [List.eq_of_mem_replicate hc4]
        decide
    · fin_cases hc2 <;> decide
  have hhd : ∀ c, (['e', 'v', 'e', 'r', 'y'] ++ List.replicate (n + 1) ' ' ++
      ['1', '0', 'm']).head? = some c → isPySpace c = false := by
    intro c hc
    rw [show (['e', 'v', 'e', 'r', 'y'] ++ List.replicate (n + 1) ' ' ++
      ['1', '0', 'm']).head? = some 'e' from rfl] at hc
    cases hc
    decide
  have hgl : ∀ c, (['e', 'v', 'e', 'r', 'y'] ++ List.replicate (n + 1) ' ' ++
      ['1', '0', 'm']).getLast? = some c → isPySpace c = false := by
    intro c hc
    rw [List.getLast?_append_of_ne_nil _ (show ['1', '0', 'm'] ≠ [] by decide)] at hc
    rw [show (['1', '0', 'm'] : List Char).getLast? = some 'm' from rfl] at hc
    cases hc
    decide
  have hstrip := pyStrip_eq_self hhd hgl
  have hnorm := normalize_eq_self hlow hhd hgl
  have hsp : ' ' ∈ ['e', 'v', 'e', 'r', 'y'] ++ List.replicate (n + 1) ' ' ++
      ['1', '0', 'm'] :=
    List.mem_append_left _ (List.mem_append_right _
      (List.mem_replicate.mpr ⟨Nat.succ_ne_zero n, rfl⟩))
  have hnh := list_ne_of_mem hsp
    (show ' ' ∉ ['h', 'o', 'u', 'r', 'l', 'y'] by decide)
  have hnm := list_ne_of_mem hsp
    (show ' ' ∉ ['m', 'i', 'n', 'u', 't', 'e', 'l', 'y'] by decide)
  have hds := dropWhile_replicate_digits n
  have hml2 : matchLit ['e', 'v', 'e', 'r', 'y']
      ('e' :: 'v' :: 'e' :: 'r' :: 'y' :: (List.replicate (n + 1) ' ' ++
        ['1', '0', 'm'])) = some (List.replicate (n + 1) ' ' ++ ['1', '0', 'm']) :=
    matchLit_append ['e', 'v', 'e', 'r', 'y'] _
  have hs : matchSpaces1 (List.replicate (n + 1) ' ' ++ ['1', '0', 'm']) =
      some ['1', '0', 'm'] := by
    rw [List.replicate_succ]
    show matchSpaces1 (' ' :: (List.replicate n ' ' ++ ['1', '0', 'm'])) = _
    simp [matchSpaces1, hds, show isPySpace ' ' = true by decide]
  have hInt : matchInterval ('e' :: 'v' :: 'e' :: 'r' :: 'y' ::
      (List.replicate (n + 1) ' ' ++ ['1', '0', 'm'])) = some (10, ['m']) := by
    simp only [matchInterval, hml2, hs]
    decide
  have hnh2 : ¬ ('e' :: 'v' :: 'e' :: 'r' :: 'y' :: (List.replicate (n + 1) ' ' ++
      ['1', '0', 'm'])) = ['h', 'o', 'u', 'r', 'l', 'y'] := hnh
  have hnm2 : ¬ ('e' :: 'v' :: 'e' :: 'r' :: 'y' :: (List.replicate (n + 1) ' ' ++
      ['1', '0', 'm'])) = ['m', 'i', 'n', 'u', 't', 'e', 'l', 'y'] := hnm
  rw [parse, if_neg (by rw [hstrip]; simp), hnorm]
  show parseNorm ('e' :: 'v' :: 'e' :: 'r' :: 'y' :: (List.replicate (n + 1) ' ' ++
    ['1', '0', 'm'])) = _
  simp only [parseNorm, if_neg hnh2, if_neg hnm2, hInt]
  decide

/-- C8: parse is insensitive to letter case and leading/trailing
whitespace (parsing an expression equals parsing its stripped,
lower-cased form), and internal whitespace runs between tokens are
tolerated without collapsing: `EVERY 10M` parses like `every 10m`,
`every   5m` like `every 5m`, and any positive run of blanks after
`every` still yields the interval. -/
theorem claim_C8 :
    (∀ e : List Char, parse e = parse (normalize e)) ∧
    parse ("EVERY 10M").data = parse ("every 10m").data ∧
    parse ("every   5m").data = parse ("every 5m").data ∧
    (∀ n : Nat, parse (['e', 'v', 'e', 'r', 'y'] ++ List.replicate (n + 1) ' ' ++
      ['1', '0', 'm']) = .ok (.interval 600)) := by
  refine ⟨?_, by decide, by decide, parse_every_blanks⟩
  intro e
  simp only [parse]
  rw [pyStrip_normalize, normalize_idem]
  by_cases hc : pyStrip e = []
  · rw [if_pos hc, if_pos (by rw [normalize, hc]; rfl)]
  · rw [if_neg hc, if_neg (fun hnil => hc ((pyLower_nil_iff (pyStrip e)).mp
      (by rw [normalize] at hnil; exact hnil)))]

/-- C10 support: whatever follows `every 5m ` in the normalised input,
the interval pattern matches the prefix and yields 300 seconds. -/
theorem parseNorm_every5m_trail (t : List Char) :
    parseNorm (("every 5m").data ++ ' ' :: t) = .ok (.interval 300) := by
  show parseNorm ('e' :: 'v' :: 'e' :: 'r' :: 'y' :: ' ' :: '5' :: 'm' :: ' ' :: t) = _
  have hml2 : matchLit ['e', 'v', 'e', 'r', 'y']
      ('e' :: 'v' :: 'e' :: 'r' :: 'y' :: ' ' :: '5' :: 'm' :: ' ' :: t) =
      some (' ' :: '5' :: 'm' :: ' ' :: t) :=
    matchLit_append ['e', 'v', 'e', 'r', 'y'] (' ' :: '5' :: 'm' :: ' ' :: t)
  have hs : matchSpaces1 (' ' :: '5' :: 'm' :: ' ' :: t) =
      some ('5' :: 'm' :: ' ' :: t) := by
    simp [matchSpaces1, List.dropWhile_cons, show isPySpace ' ' = true by decide,
      show isPySpace '5' = false by decide]
  have hInt : matchInterval ('e' :: 'v' :: 'e' :: 'r' :: 'y' :: ' ' :: '5' :: 'm' ::
      ' ' :: t) = some (5, ['m']) := by
    simp [matchInterval, hml2, hs, List.takeWhile_cons,
      show Char.isDigit '5' = true by decide, show Char.isDigit 'm' = false by decide,
      show isWordChar 'm' = true by decide, show isWordChar ' ' = false by decide,
      show digitsToNat ['5'] = 5 by decide]
  simp only [parseNorm,
    if_neg (show ¬ ('e' :: 'v' :: 'e' :: 'r' :: 'y' :: ' ' :: '5' :: 'm' :: ' ' :: t) =
      ['h', 'o', 'u', 'r', 'l', 'y'] by simp),
    if_neg (show ¬ ('e' :: 'v' :: 'e' :: 'r' :: 'y' :: ' ' :: '5' :: 'm' :: ' ' :: t) =
      ['m', 'i', 'n', 'u', 't', 'e', 'l', 'y'] by simp), hInt]
  decide

/-- C10 support: whatever follows `daily at 09:00 ` in the normalised
input, the daily pattern matches the prefix and yields the 09:00 entry. -/
theorem parseNorm_daily_trail (t : List Char) :
    parseNorm (("daily at 09:00").data ++ ' ' :: t) =
      .ok (.calendar [("Hour", 9), ("Minute", 0)]) := by
  show parseNorm ('d' :: 'a' :: 'i' :: 'l' :: 'y' :: ' ' :: 'a' :: 't' :: ' ' ::
    '0' :: '9' :: ':' :: '0' :: '0' :: ' ' :: t) = _
  have hI : matchInterval ('d' :: 'a' :: 'i' :: 'l' :: 'y' :: ' ' :: 'a' :: 't' ::
      ' ' :: '0' :: '9' :: ':' :: '0' :: '0' :: ' ' :: t) = none := by
    have hml : matchLit ['e', 'v', 'e', 'r', 'y'] ('d' :: 'a' :: 'i' :: 'l' :: 'y' ::
        ' ' :: 'a' :: 't' :: ' ' :: '0' :: '9' :: ':' :: '0' :: '0' :: ' ' :: t) =
        none := by
      apply matchLit_none
      rintro ⟨u, hu⟩
      simp at hu
    simp [matchInterval, hml]
  have hml2 : matchLit ['d', 'a', 'i', 'l', 'y'] ('d' :: 'a' :: 'i' :: 'l' :: 'y' ::
      ' ' :: 'a' :: 't' :: ' ' :: '0' :: '9' :: ':' :: '0' :: '0' :: ' ' :: t) =
      some (' ' :: 'a' :: 't' :: ' ' :: '0' :: '9' :: ':' :: '0' :: '0' :: ' ' :: t) :=
    matchLit_append ['d', 'a', 'i', 'l', 'y'] _
  have hs1 : matchSpaces1 (' ' :: 'a' :: 't' :: ' ' :: '0' :: '9' :: ':' :: '0' ::
      '0' :: ' ' :: t) = some ('a' :: 't' :: ' ' :: '0' :: '9' :: ':' :: '0' :: '0' ::
      ' ' :: t) := by
    simp [matchSpaces1, List.dropWhile_cons, show isPySpace ' ' = true by decide,
      show isPySpace 'a' = false by decide]
  have hat : matchAtTime ('a' :: 't' :: ' ' :: '0' :: '9' :: ':' :: '0' :: '0' ::
      ' ' :: t) = some (9, 0) := by
    have hlit : matchLit ['a', 't'] ('a' :: 't' :: ' ' :: '0' :: '9' :: ':' :: '0' ::
        '0' :: ' ' :: t) = some (' ' :: '0' :: '9' :: ':' :: '0' :: '0' :: ' ' :: t) :=
      matchLit_append ['a', 't'] _
    have hsp : matchSpaces1 (' ' :: '0' :: '9' :: ':' :: '0' :: '0' :: ' ' :: t) =
        some ('0' :: '9' :: ':' :: '0' :: '0' :: ' ' :: t) := by
      simp [matchSpaces1, List.dropWhile_cons, show isPySpace ' ' = true by decide,
        show isPySpace '0' = false by decide]
    have hmt : matchTime ('0' :: '9' :: ':' :: '0' :: '0' :: ' ' :: t) =
        some (9, 0) := by
      simp [matchTime, show Char.isDigit '0' = true by decide,
        show Char.isDigit '9' = true by decide, show digitVal '0' = 0 by decide,
        show digitVal '9' = 9 by decide]
    simp [matchAtTime, hlit, hsp, hmt]
  have hD : matchDaily ('d' :: 'a' :: 'i' :: 'l' :: 'y' :: ' ' :: 'a' :: 't' :: ' ' ::
      '0' :: '9' :: ':' :: '0' :: '0' :: ' ' :: t) = some (9, 0) := by
    simp [matchDaily, hml2, hs1, hat]
  simp only [parseNorm,
    if_neg (show ¬ ('d' :: 'a' :: 'i' :: 'l' :: 'y' :: ' ' :: 'a' :: 't' :: ' ' ::
      '0' :: '9' :: ':' :: '0' :: '0' :: ' ' :: t) = ['h', 'o', 'u', 'r', 'l', 'y']
      by simp),
    if_neg (show ¬ ('d' :: 'a' :: 'i' :: 'l' :: 'y' :: ' ' :: 'a' :: 't' :: ' ' ::
      '0' :: '9' :: ':' :: '0' :: '0' :: ' ' :: t) =
      ['m', 'i', 'n', 'u', 't', 'e', 'l', 'y'] by simp), hI, hD]
  decide

/-- C10: when the leading portion of the input matches a grammar
pattern, parse succeeds on that leading portion and silently ignores
any trailing text instead of reporting `Invalid schedule format`:
everything after `every 5m ` or `daily at 09:00 ` is ignored, and in
particular `every 5m nonsense` yields Interval(300) and
`daily at 09:00 extra` parses as if the trailing text were absent. -/
theorem claim_C10 :
    (∀ rest : List Char, parse (("every 5m ").data ++ rest) = .ok (.interval 300)) ∧
    (∀ rest : List Char, parse (("daily at 09:00 ").data ++ rest) =
      .ok (.calendar [("Hour", 9), ("Minute", 0)])) ∧
    parse ("every 5m nonsense").data = .ok (.interval 300) ∧
    parse ("daily at 09:00 extra").data =
      .ok (.calendar [("Hour", 9), ("Minute", 0)]) := by
  refine ⟨?_, ?_, by decide, by decide⟩
  · intro rest
    show parse (("every 5m").data ++ ' ' :: rest) = _
    obtain hA | ⟨t, hB⟩ := strip_token_trail (("every 5m").data) rest (by decide)
      (by
        intro c hc
        rw [show (("every 5m").data).head? = some 'e' from rfl] at hc
        cases hc
        decide)
      (by
        intro c hc
        rw [show (("every 5m").data).getLast? = some 'm' from rfl] at hc
        cases hc
        decide)
    · rw [parse, if_neg (by rw [hA]; decide), normalize, hA]
      decide
    · rw [parse, if_neg (by rw [hB]; simp), normalize, hB]
      have hpl : pyLower (("every 5m").data ++ ' ' :: t) =
          ("every 5m").data ++ ' ' :: pyLower t := by
        rw [pyLower, List.map_append]
        rw [show List.map lowerChar (("every 5m").data) = ("every 5m").data
          by decide]
        rw [show List.map lowerChar (' ' :: t) = ' ' :: List.map lowerChar t
          from by rw [List.map_cons, show lowerChar ' ' = ' ' by decide]]
        rfl
      rw [hpl]
      exact parseNorm_every5m_trail (pyLower t)
  · intro rest
    show parse (("daily at 09:00").data ++ ' ' :: rest) = _
    obtain hA | ⟨t, hB⟩ := strip_token_trail (("daily at 09:00").data) rest (by decide)
      (by
        intro c hc
        rw [show (("daily at 09:00").data).head? = some 'd' from rfl] at hc
        cases hc
        decide)
      (by
        intro c hc
        rw [show (("daily at 09:00").data).getLast? = some '0' from rfl] at hc
        cases hc
        decide)
    · rw [parse, if_neg (by rw [hA]; decide), normalize, hA]
      decide
    · rw [parse, if_neg (by rw [hB]; simp), normalize, hB]
      have hpl : pyLower (("daily at 09:00").data ++ ' ' :: t) =
          ("daily at 09:00").data ++ ' ' :: pyLower t := by
        rw [pyLower, List.map_append]
        rw [show List.map lowerChar (("daily at 09:00").data) =
          ("daily at 09:00").data by decide]
        rw [show List.map lowerChar (' ' :: t) = ' ' :: List.map lowerChar t
          from by rw [List.map_cons, show lowerChar ' ' = ' ' by decide]]
        rfl
      rw [hpl]
      exact parseNorm_daily_trail (pyLower t)

end ITask
